import Mathlib

/-!
# Verification of the LizardByte/packages asset-mirroring pipeline

A shallow embedding of the synchronization pipeline:

* `file-utils.js` — the content store, modelled as a path-indexed size map (`Disk`);
* `hash-utils.js` — `generateHashFiles`, writing three hex-digest sibling files;
* `download-utils.js` — `downloadFile` / `downloadAssetWithRetry`, driven by an
  explicit list of per-attempt fetch outcomes;
* the quota-aware sync script (`processAsset`, `processRelease`,
  `processRepository`, `syncReleaseAssets`);
* `generate-packages.js` — the manifest builder (`generatePackagesJson` and its
  directory scanners), over a directory-tree model (`Entry`);
* `cleanup-releases.js` — `cleanupNonVPrefixedReleases`;
* `sync-with-metadata.js` — `syncAssetsWithMetadata`.

Network and hashing failures are modelled by explicit oracles: each `Asset`
carries `dlOk` (some download attempt within the retry budget succeeds) and
`hashOk` (hash generation for it succeeds), and the fetcher takes a list of
per-attempt outcomes.  File contents are abstracted to byte sizes; a hex digest
file's content is its digest length (64 for sha256, 128 for sha512, 32 for md5).
-/

namespace Packages

/-! ## Content store (`file-utils.js`)

The filesystem seen through `fileExists` / `writeFileSync` / `unlinkSync` /
`statSync().size`, modelled as an association list from paths to file sizes. -/

abbrev Disk := List (String × Nat)

/-- Look up the size of the file at path `p` (`none` when no such file). -/
def dget : Disk → String → Option Nat
  | [], _ => none
  | (q, n) :: rest, p => if q = p then some n else dget rest p

/-- `fs.existsSync` -/
def fileExists (d : Disk) (p : String) : Bool :=
  (dget d p).isSome

/-- `fs.unlinkSync` (removing a non-existent path is a no-op in the model;
the source only unlinks after an existence check). -/
def dremove : Disk → String → Disk
  | [], _ => []
  | (q, n) :: rest, p => if q = p then dremove rest p else (q, n) :: dremove rest p

/-- `fs.writeFileSync`: create or overwrite the file at `p` with `n` bytes. -/
def dset (d : Disk) (p : String) (n : Nat) : Disk :=
  (p, n) :: dremove d p

/-! ## String helpers

`String.startsWith`/`endsWith` from the JS source, re-expressed over the
character list so that they reduce definitionally. -/

def strStartsWith (s pre : String) : Bool :=
  pre.data.isPrefixOf s.data

def strEndsWith (s suf : String) : Bool :=
  suf.data.isSuffixOf s.data

/-! ## Hasher (`hash-utils.js`)

`generateHashFiles(assetPath)` computes sha256/sha512/md5 over the file and
writes each hex digest to `<assetPath>.<ext>`; it returns `false` if anything
fails.  Success is an environment fact, supplied as the `hashOk` oracle; on
failure nothing is written (the canonical failure is the initial `readFile`). -/

def hashSiblings (p : String) : List String :=
  [p ++ ".sha256", p ++ ".sha512", p ++ ".md5"]

/-- The three digest files written by a successful `generateHashFiles`:
contents are hex strings of length 64 / 128 / 32. -/
def writeHashFiles (d : Disk) (p : String) : Disk :=
  dset (dset (dset d (p ++ ".sha256") 64) (p ++ ".sha512") 128) (p ++ ".md5") 32

def generateHashFiles (hashOk : Bool) (d : Disk) (p : String) : Bool × Disk :=
  if hashOk then (true, writeHashFiles d p) else (false, d)

/-! ## Retrying fetcher (`download-utils.js`) -/

/-- The observable outcome of one `fetch` attempt: a non-success HTTP status,
a transport error while buffering the body, or a fully buffered body of
`byteLength` bytes. -/
inductive FetchOutcome
  | httpError (statusText : String)
  | bodyError (message : String)
  | success (byteLength : Nat)
deriving DecidableEq

/-- `downloadFile(url, filePath, token)`: throws on a non-ok status, otherwise
buffers the whole body (`response.arrayBuffer()`) and only then writes the
destination file.  Both failure modes occur before any write. -/
def downloadFile (outcome : FetchOutcome) (filePath : String) (d : Disk) :
    Disk × Except String Unit :=
  match outcome with
  | .httpError s => (d, .error ("Failed to download: " ++ s))
  | .bodyError m => (d, .error m)
  | .success n => (dset d filePath n, .ok ())

/-- `downloadAssetWithRetry`: one entry of `outcomes` per attempt (`maxRetries`
attempts, default 3).  A successful attempt returns `true`; a failed attempt
retries after backoff, except the last, which rethrows.  The `.ok false`
result mirrors falling off the loop (only possible with zero attempts). -/
def downloadAssetWithRetry (outcomes : List FetchOutcome) (filePath : String)
    (d : Disk) : Disk × Except String Bool :=
  match outcomes with
  | [] => (d, .ok false)
  | [o] =>
    match downloadFile o filePath d with
    | (d1, .ok _) => (d1, .ok true)
    | (d1, .error e) => (d1, .error e)
  | o :: rest =>
    match downloadFile o filePath d with
    | (d1, .ok _) => (d1, .ok true)
    | (_, .error _) => downloadAssetWithRetry rest filePath d

/-! ## Discovery data (the GitHub release listing, as consumed by the sync) -/

/-- One release asset as exposed by discovery, together with the environment's
behavior for it: `dlOk` — some download attempt within the retry budget
succeeds (delivering `size` bytes); `hashOk` — hash generation succeeds. -/
structure Asset where
  name : String
  size : Nat
  dlOk : Bool
  hashOk : Bool
deriving DecidableEq

structure Release where
  tag_name : String
  draft : Bool
  prerelease : Bool
  assets : List Asset
deriving DecidableEq

instance {α β : Type} [DecidableEq α] [DecidableEq β] : DecidableEq (Except α β) :=
  fun x y =>
  match x, y with
  | .error a, .error b =>
    if h : a = b then .isTrue (h ▸ rfl) else .isFalse (fun hc => by cases hc; exact h rfl)
  | .error _, .ok _ => .isFalse (fun hc => by cases hc)
  | .ok _, .error _ => .isFalse (fun hc => by cases hc)
  | .ok a, .ok b =>
    if h : a = b then .isTrue (h ▸ rfl) else .isFalse (fun hc => by cases hc; exact h rfl)

/-- A repository from discovery; `releases` is the outcome of the paginated
`listReleases` enumeration, which may throw. -/
structure Repo where
  name : String
  releases : Except String (List Release)
deriving DecidableEq

/-! ## Asset processor (`processAsset` in the sync script) -/

structure AssetResult where
  downloaded : Bool
  isNew : Bool
deriving DecidableEq

/-- 50 MB in bytes. -/
def maxSizeBytes : Nat := 50 * 1024 * 1024

/-- `path.join(releaseDir, asset.name)` -/
def assetPathOf (releaseDir : String) (a : Asset) : String :=
  releaseDir ++ "/" ++ a.name

/-- Unlink the asset file, then each of its hash siblings, as the two eviction
sites in `processAsset` do. -/
def removeFileAndHashes (d : Disk) (p : String) : Disk :=
  (hashSiblings p).foldl dremove (dremove d p)

/-- The download section at the end of `processAsset`: call
`downloadAssetWithRetry` (a throw is caught and reported as
`{downloaded: false, isNew: false}`), then `generateHashFiles`, returning
`{downloaded: hashSuccess, isNew: true}`. -/
def processAssetDownload (a : Asset) (assetPath : String) (d : Disk) :
    AssetResult × Disk :=
  let outcomes := if a.dlOk then [FetchOutcome.success a.size]
                  else [FetchOutcome.httpError "fetch failed"]
  match downloadAssetWithRetry outcomes assetPath d with
  | (d1, .ok _) =>
    let h := generateHashFiles a.hashOk d1 assetPath
    (⟨h.1, true⟩, h.2)
  | (d1, .error _) => (⟨false, false⟩, d1)

/-- `processAsset(releaseDir, asset)` of the quota-aware sync script: size
gating with eviction of oversized files (remote-size branch and on-disk
legacy branch), incremental skip, then download + hash. -/
def processAsset (releaseDir : String) (a : Asset) (d : Disk) :
    AssetResult × Disk :=
  let assetPath := assetPathOf releaseDir a
  if maxSizeBytes < a.size then
    -- oversized remote asset: never downloaded; evict any existing copy
    let d1 := if fileExists d assetPath then removeFileAndHashes d assetPath else d
    (⟨false, false⟩, d1)
  else if fileExists d assetPath then
    match dget d assetPath with
    | some s =>
      if maxSizeBytes < s then
        -- legacy oversized on-disk file: evict, re-check remote size, download
        let d1 := removeFileAndHashes d assetPath
        if maxSizeBytes < a.size then (⟨false, false⟩, d1)
        else processAssetDownload a assetPath d1
      else (⟨true, false⟩, d)
    | none => (⟨true, false⟩, d) -- statSync threw: treated as already present
  else processAssetDownload a assetPath d

/-! ## Release / repository walker (the quota-aware sync script) -/

/-- One entry pushed onto `repoData.releases`. -/
structure RelEntry where
  tag : String
  assetCount : Nat
deriving DecidableEq

/-- One entry pushed onto `repositoryData` by `processRepository`. -/
structure RepoData where
  name : String
  releases : List RelEntry
deriving DecidableEq

/-- The asset loop of `processRelease`: before each asset the global new-asset
quota is checked (`maxNewAssets > 0 && currentNewAssets + newAssets >=
maxNewAssets` breaks); a processed asset bumps `assetCount` when reported
`downloaded`, and `newAssets` when additionally `isNew`. -/
def processAssetsLoop (releaseDir : String) (maxNewAssets currentNewAssets : Nat) :
    List Asset → Nat → Nat → Disk → Nat × Nat × Disk
  | [], assetCount, newAssets, d => (assetCount, newAssets, d)
  | a :: rest, assetCount, newAssets, d =>
    if 0 < maxNewAssets ∧ maxNewAssets ≤ currentNewAssets + newAssets then
      (assetCount, newAssets, d)
    else
      let rd := processAsset releaseDir a d
      let assetCount1 := if rd.1.downloaded then assetCount + 1 else assetCount
      let newAssets1 := if rd.1.downloaded ∧ rd.1.isNew then newAssets + 1 else newAssets
      processAssetsLoop releaseDir maxNewAssets currentNewAssets rest assetCount1 newAssets1 rd.2

/-- `processRelease(repoName, release, maxNewAssets, currentNewAssets)`:
returns `(assetCount, newAssets)` plus the updated disk.  (The early return
for an empty asset list coincides with the loop on an empty list; `ensureDir`
is implicit in the path-keyed disk.) -/
def processRelease (repoName : String) (rel : Release)
    (maxNewAssets currentNewAssets : Nat) (d : Disk) : Nat × Nat × Disk :=
  if rel.assets.length = 0 then (0, 0, d)
  else
    processAssetsLoop (repoName ++ "/" ++ rel.tag_name) maxNewAssets currentNewAssets
      rel.assets 0 0 d

/-- The truthiness test `isPullRequest && releaseLimit && processed >= releaseLimit`
(a `null` or `0` limit is falsy). -/
def prLimitReached (isPR : Bool) (releaseLimit : Option Nat) (processed : Nat) : Prop :=
  match releaseLimit with
  | none => False
  | some l => isPR = true ∧ l ≠ 0 ∧ l ≤ processed

instance (isPR : Bool) (releaseLimit : Option Nat) (processed : Nat) :
    Decidable (prLimitReached isPR releaseLimit processed) := by
  unfold prLimitReached
  cases releaseLimit <;> infer_instance

/-- The release loop of `processRepository`, over the published releases:
state is `(totalAssets, processedReleasesWithAssets, repoNewAssets,
repoData.releases, disk)`.  The global quota and the pull-request release cap
are checked before each release. -/
def processReleasesLoop (repoName : String) (isPR : Bool) (releaseLimit : Option Nat)
    (maxNewAssets newAssetsDownloaded : Nat) :
    List Release → Nat → Nat → Nat → List RelEntry → Disk →
    Nat × Nat × Nat × List RelEntry × Disk
  | [], totalAssets, processedRWA, repoNew, entries, d =>
    (totalAssets, processedRWA, repoNew, entries, d)
  | rel :: rest, totalAssets, processedRWA, repoNew, entries, d =>
    if 0 < maxNewAssets ∧ maxNewAssets ≤ newAssetsDownloaded + repoNew then
      (totalAssets, processedRWA, repoNew, entries, d)
    else if prLimitReached isPR releaseLimit processedRWA then
      (totalAssets, processedRWA, repoNew, entries, d)
    else
      let r := processRelease repoName rel maxNewAssets (newAssetsDownloaded + repoNew) d
      let assetCount := r.1
      let pushed := 0 < assetCount
      processReleasesLoop repoName isPR releaseLimit maxNewAssets newAssetsDownloaded rest
        (totalAssets + assetCount)
        (if pushed then processedRWA + 1 else processedRWA)
        (repoNew + r.2.1)
        (if pushed then entries ++ [⟨rel.tag_name, assetCount⟩] else entries)
        r.2.2

/-- Result record of `processRepository`, together with the (mutated)
`repositoryData` array and disk. -/
structure RepoResult where
  repositoryData : List RepoData
  totalAssets : Nat
  processedReleases : Nat
  newAssetsDownloaded : Nat
  disk : Disk
deriving DecidableEq

/-- Keep only generally-available releases (`!draft && !prerelease`). -/
def publishedOf (rels : List Release) : List Release :=
  rels.filter (fun r => !r.draft && !r.prerelease)

/-- `processRepository`: enumerate releases (a throw is caught, leaving every
piece of state untouched and `processedReleases = 0`), filter to published
releases, run the release loop, and push a `RepoData` record when it collected
at least one release with assets. -/
def processRepository (repo : Repo) (repositoryData : List RepoData)
    (totalAssets : Nat) (isPR : Bool) (releaseLimit : Option Nat)
    (maxNewAssets newAssetsDownloaded : Nat) (d : Disk) : RepoResult :=
  match repo.releases with
  | .error _ => ⟨repositoryData, totalAssets, 0, newAssetsDownloaded, d⟩
  | .ok releases =>
    let published := publishedOf releases
    if published.length = 0 then
      ⟨repositoryData, totalAssets, 0, newAssetsDownloaded, d⟩
    else
      let r := processReleasesLoop repo.name isPR releaseLimit maxNewAssets
        newAssetsDownloaded published totalAssets 0 0 [] d
      let entries := r.2.2.2.1
      let repositoryData1 :=
        if 0 < entries.length then repositoryData ++ [⟨repo.name, entries⟩]
        else repositoryData
      ⟨repositoryData1, r.1, r.2.1, newAssetsDownloaded + r.2.2.1, r.2.2.2.2⟩

/-- The run-wide state accumulated by `syncReleaseAssets`. -/
structure SyncState where
  repositoryData : List RepoData
  totalAssets : Nat
  totalProcessedReleases : Nat
  newAssetsDownloaded : Nat
  disk : Disk
deriving DecidableEq

/-- The repository loop of `syncReleaseAssets`: the quota is checked before
entering each repository; in pull-request mode the release cap is 2. -/
def syncLoop (isPR : Bool) (maxNewAssets : Nat) : List Repo → SyncState → SyncState
  | [], st => st
  | repo :: rest, st =>
    if 0 < maxNewAssets ∧ maxNewAssets ≤ st.newAssetsDownloaded then st
    else
      let r := processRepository repo st.repositoryData st.totalAssets isPR
        (if isPR then some 2 else none) maxNewAssets st.newAssetsDownloaded st.disk
      syncLoop isPR maxNewAssets rest
        ⟨r.repositoryData, r.totalAssets,
          st.totalProcessedReleases + r.processedReleases,
          r.newAssetsDownloaded, r.disk⟩

/-- The state `syncReleaseAssets(github, context, isPullRequest, maxNewAssets)`
has accumulated when its body finishes (repositories come from the paginated
`listForOrg` enumeration). -/
def syncReleaseAssetsState (repos : List Repo) (isPR : Bool) (maxNewAssets : Nat)
    (d : Disk) : SyncState :=
  syncLoop isPR maxNewAssets repos ⟨[], 0, 0, 0, d⟩

/-- The value `syncReleaseAssets` resolves to: its body ends after the final
`console.log` without a `return` statement, so the async function resolves to
`undefined` (modelled as `none`) — `repositoryData` is never handed back. -/
def syncReleaseAssetsRet (_repos : List Repo) (_isPR : Bool) (_maxNewAssets : Nat)
    (_d : Disk) : Option (List RepoData) :=
  none

/-- `syncAssetsWithMetadata`: awaits `syncReleaseAssets`, then
`fs.writeFileSync('repo-metadata.json', JSON.stringify(repositoryData, null, 2))`.
`JSON.stringify(undefined)` is `undefined`, so `writeFileSync` throws a
`TypeError`, which the surrounding catch logs and rethrows. -/
def syncAssetsWithMetadata (repos : List Repo) (isPR : Bool) (maxNewAssets : Nat)
    (d : Disk) : Except String (List RepoData) :=
  match syncReleaseAssetsRet repos isPR maxNewAssets d with
  | some repositoryData => .ok repositoryData
  | none => .error "TypeError: the data argument must be of type string or an instance of Buffer"

/-! ## Directory trees and comparators (`generate-packages.js`, `cleanup-releases.js`) -/

/-- A directory entry as seen by `fs.readdirSync(..., { withFileTypes: true })`. -/
inductive Entry
  | file (name : String) (size : Nat)
  | dir (name : String) (children : List Entry)

/-- Stable insertion of `x` into `l`, placing it after every element `b` with
`le b x` — together with `sortBy` this models `Array.prototype.sort`, which is
stable and orders by the supplied comparator. -/
def insertBy {α : Type} (le : α → α → Bool) (x : α) : List α → List α
  | [] => [x]
  | b :: l => if le b x then b :: insertBy le x l else x :: b :: l

/-- `Array.prototype.sort(comparator)` as a stable sort: `le a b` holds when
`comparator(a, b) <= 0`. -/
def sortBy {α : Type} (le : α → α → Bool) (l : List α) : List α :=
  l.foldl (fun acc x => insertBy le x acc) []

/-- Plain `a.localeCompare(b)`, modelled as code-point comparison of the
character lists. -/
def cmpCharsRaw : List Char → List Char → Ordering
  | [], [] => .eq
  | [], _ :: _ => .lt
  | _ :: _, [] => .gt
  | c :: cs, e :: es =>
    match compare c.toNat e.toNat with
    | .eq => cmpCharsRaw cs es
    | o => o

def strCmp (a b : String) : Ordering :=
  cmpCharsRaw a.data b.data

/-- Maximal runs of digit / non-digit characters, for numeric-aware collation. -/
def tokensOf : List Char → List (Bool × List Char)
  | [] => []
  | c :: cs =>
    match tokensOf cs with
    | [] => [(c.isDigit, [c])]
    | (b, run) :: ts =>
      if c.isDigit = b then (b, c :: run) :: ts else (c.isDigit, [c]) :: (b, run) :: ts

/-- Numeric value of a digit run. -/
def digitsVal (cs : List Char) : Nat :=
  cs.foldl (fun n c => n * 10 + (c.toNat - 48)) 0

/-- Compare two runs: digit runs numerically; otherwise case-folded code-point
comparison (the `sensitivity: 'base'` option); a digit run collates before a
non-digit run. -/
def cmpTok : Bool × List Char → Bool × List Char → Ordering
  | (true, xs), (true, ys) => compare (digitsVal xs) (digitsVal ys)
  | (true, _), (false, _) => .lt
  | (false, _), (true, _) => .gt
  | (false, xs), (false, ys) => cmpCharsRaw (xs.map Char.toLower) (ys.map Char.toLower)

def cmpTokList : List (Bool × List Char) → List (Bool × List Char) → Ordering
  | [], [] => .eq
  | [], _ :: _ => .lt
  | _ :: _, [] => .gt
  | t :: ts, u :: us =>
    match cmpTok t u with
    | .eq => cmpTokList ts us
    | o => o

/-- `a.localeCompare(b, undefined, { numeric: true, sensitivity: 'base' })` —
version-aware comparison: digit runs compare by value, everything else by
case-folded code points. -/
def numericCompare (a b : String) : Ordering :=
  cmpTokList (tokensOf a.data) (tokensOf b.data)

/-- The release comparator `(a, b) => b.tag.localeCompare(a.tag, undefined,
{ numeric: true, sensitivity: 'base' })`: `a` sorts no later than `b` when the
comparator is `<= 0`, i.e. descending by version. -/
def relDescLe (a b : RelEntry) : Bool :=
  numericCompare b.tag a.tag ≠ Ordering.gt

/-! ## Manifest builder (`generate-packages.js`) -/

/-- A repository record of the manifest. -/
structure RepoEntry where
  name : String
  archived : Bool
  releases : List RelEntry
deriving DecidableEq

/-- Auxiliary repository metadata handed to `generatePackagesJson`. -/
structure RepoMeta where
  name : String
  archived : Bool
deriving DecidableEq

structure Stats where
  totalRepositories : Nat
  totalReleases : Nat
  totalAssets : Nat
deriving DecidableEq

/-- The manifest document: exactly `lastUpdated`, `repositories`, `stats`. -/
structure PackagesData where
  lastUpdated : String
  repositories : List RepoEntry
  stats : Stats
deriving DecidableEq

/-- A qualifying asset file: a plain file that is not a hash artifact and not
`README.md`. -/
def isQualifyingFile : Entry → Bool
  | .file fn _ =>
    !(strEndsWith fn ".sha256" || strEndsWith fn ".sha512" || strEndsWith fn ".md5" ||
      fn = "README.md")
  | .dir _ _ => false

/-- `scanReleaseDirectory`: count qualifying files; `null` when none. -/
def scanReleaseDirectory (tag : String) (children : List Entry) : Option RelEntry :=
  let assetFiles := children.filter isQualifyingFile
  if 0 < assetFiles.length then some ⟨tag, assetFiles.length⟩ else none

/-- `scanRepositoryDirectory`: scan `v`-prefixed subdirectories, sort the
collected releases with the version-aware descending comparator, and return
`null` when none qualify (`archived` starts out `false`). -/
def scanRepositoryDirectory (name : String) (children : List Entry) :
    Option RepoEntry :=
  let releases := children.filterMap (fun e =>
    match e with
    | .dir dn dch => if strStartsWith dn "v" then scanReleaseDirectory dn dch else none
    | .file _ _ => none)
  let sorted := sortBy relDescLe releases
  if 0 < sorted.length then some ⟨name, false, sorted⟩ else none

/-- `repoMetadataMap.get(name)` where the map was filled by `forEach(set)`:
the last metadata record with a given name wins. -/
def metaFind (meta : List RepoMeta) (n : String) : Option RepoMeta :=
  meta.reverse.find? (fun m => m.name = n)

/-- The repository comparator `(a, b) => a.name.localeCompare(b.name)`:
ascending by name. -/
def repoAscLe (a b : RepoEntry) : Bool :=
  strCmp a.name b.name ≠ Ordering.gt

/-- The repository-scanning loop of `generatePackagesJson`: process each
top-level directory except `.git`, overlaying the `archived` flag by exact
name match when metadata is available. -/
def scannedRepos (fs : List Entry) (meta : List RepoMeta) : List RepoEntry :=
  fs.filterMap (fun e =>
    match e with
    | .file _ _ => none
    | .dir n ch =>
      if n = ".git" then none
      else
        match scanRepositoryDirectory n ch with
        | none => none
        | some rd =>
          match metaFind meta n with
          | some m => some { rd with archived := m.archived }
          | none => some rd)

/-- `generatePackagesJson(distPath, repositoryMetadata)`: scan each top-level
directory except `.git`, overlay the `archived` flag by exact name match, sort
repositories by name ascending, and attach summation statistics and the
timestamp (`new Date().toISOString()`, passed in as `now`). -/
def generatePackagesJson (fs : List Entry) (meta : List RepoMeta) (now : String) :
    PackagesData :=
  let repositories := sortBy repoAscLe (scannedRepos fs meta)
  let totalReleases := (repositories.map (fun r => r.releases.length)).sum
  let totalAssets :=
    (repositories.map (fun r => (r.releases.map (fun rel => rel.assetCount)).sum)).sum
  ⟨now, repositories, ⟨repositories.length, totalReleases, totalAssets⟩⟩

/-! ## Stale-state cleaner (`cleanup-releases.js`) -/

/-- `fs.rmSync(path.join(repoPath, dn), { recursive: true, force: true })`:
drop every subdirectory named `dn` (files are untouched). -/
def removeDirNamed (children : List Entry) (dn : String) : List Entry :=
  children.filter (fun e =>
    match e with
    | .dir n _ => decide (n ≠ dn)
    | .file _ _ => true)

/-- The inner loop of the cleaner over one repository's `readdirSync` snapshot:
remove every immediate subdirectory whose name does not start with `v`. -/
def cleanupRepoContents (children : List Entry) : List Entry :=
  children.foldl (fun acc e =>
    match e with
    | .dir n _ => if strStartsWith n "v" then acc else removeDirNamed acc n
    | .file _ _ => acc) children

/-- A top-level directory the cleaner touches: not `.git`, not `packages.json`,
not dot-prefixed. -/
def notReservedTop (n : String) : Bool :=
  decide (n ≠ ".git") && decide (n ≠ "packages.json") && !strStartsWith n "."

/-- `cleanupNonVPrefixedReleases(distPath)`: for every non-reserved top-level
directory, remove its non-`v`-prefixed subdirectories.  `readdirFails` is the
environment oracle for `readdirSync(repoPath)` throwing, in which case that
repository's cleanup is skipped (logged) and the loop continues. -/
def cleanupNonVPrefixedReleases (readdirFails : String → Bool) (fs : List Entry) :
    List Entry :=
  fs.map (fun e =>
    match e with
    | .dir n ch =>
      if notReservedTop n then
        if readdirFails n then Entry.dir n ch else Entry.dir n (cleanupRepoContents ch)
      else Entry.dir n ch
    | f => f)

/-! ## Derived notions used by the statements

Occurrences (the per-asset destinations a run touches), interference between
two destinations, availability of an asset for a fresh download, and the pure
walker outputs a fully successful unlimited run produces. -/

/-- Whether an asset qualifies under the 50 MB ceiling. -/
def smallB (a : Asset) : Bool :=
  decide (a.size ≤ maxSizeBytes)

/-- The paths `processAsset` may read or write for destination `p`. -/
def touchedPaths (p : String) : List String :=
  p :: hashSiblings p

/-- Two asset occurrences do not interfere: neither destination is among the
paths the other occurrence touches. -/
def NoInterfere (x y : String × Asset) : Prop :=
  x.1 ∉ touchedPaths y.1 ∧ y.1 ∉ touchedPaths x.1

instance (x y : String × Asset) : Decidable (NoInterfere x y) := by
  unfold NoInterfere; infer_instance

/-- Both environment oracles report success for this occurrence. -/
def Succeeds (o : String × Asset) : Prop :=
  o.2.dlOk = true ∧ o.2.hashOk = true

instance (o : String × Asset) : Decidable (Succeeds o) := by
  unfold Succeeds; infer_instance

/-- The destinations of a list of assets below one release directory. -/
def assetOccs (dir : String) (assets : List Asset) : List (String × Asset) :=
  assets.map (fun a => (assetPathOf dir a, a))

/-- The destinations of one release's assets. -/
def relOccs (repoName : String) (rel : Release) : List (String × Asset) :=
  assetOccs (repoName ++ "/" ++ rel.tag_name) rel.assets

/-- The destinations a repository's published releases give rise to (an
enumeration failure yields none). -/
def repoOccs (repo : Repo) : List (String × Asset) :=
  match repo.releases with
  | .error _ => []
  | .ok rels => (publishedOf rels).flatMap (relOccs repo.name)

/-- Every asset destination of a run over `repos`. -/
def occurrences (repos : List Repo) : List (String × Asset) :=
  repos.flatMap repoOccs

/-- An asset is available for a fresh download on disk `d`: its remote size is
within the ceiling and its destination is either absent or holds an oversized
legacy file (which the run evicts and re-downloads). -/
def availableNew (d : Disk) (p : String) (a : Asset) : Bool :=
  smallB a &&
    (match dget d p with
     | none => true
     | some s => decide (maxSizeBytes < s))

/-- How many of the given occurrences are available for a fresh download. -/
def countAvail (d : Disk) (occs : List (String × Asset)) : Nat :=
  occs.countP (fun o => availableNew d o.1 o.2)

/-- The on-disk state a fully successful pass leaves at an asset destination:
a within-ceiling file for a within-ceiling asset, nothing for an oversized
one. -/
def afterGoodB (d : Disk) (p : String) (a : Asset) : Bool :=
  if a.size ≤ maxSizeBytes then
    match dget d p with
    | some s => decide (s ≤ maxSizeBytes)
    | none => false
  else (dget d p).isNone

/-- Number of within-ceiling assets of a release — the `assetCount` a fully
successful unlimited pass reports for it. -/
def smallCount (rel : Release) : Nat :=
  rel.assets.countP smallB

/-- The `releases` entry a fully successful unlimited pass pushes for a
release, if any. -/
def relEntrySpec (rel : Release) : Option RelEntry :=
  if 0 < smallCount rel then some ⟨rel.tag_name, smallCount rel⟩ else none

/-- The release entries a fully successful unlimited pass collects for a
repository's release list. -/
def repoEntriesSpec (rels : List Release) : List RelEntry :=
  (publishedOf rels).filterMap relEntrySpec

/-- The `RepoData` record a fully successful unlimited pass pushes for a
repository, if any. -/
def repoDataSpec (repo : Repo) : Option RepoData :=
  match repo.releases with
  | .error _ => none
  | .ok rels =>
    let es := repoEntriesSpec rels
    if 0 < es.length then some ⟨repo.name, es⟩ else none

/-- `repositoryData` after a fully successful unlimited run. -/
def repositoryDataSpec (repos : List Repo) : List RepoData :=
  repos.filterMap repoDataSpec

/-- A repository's contribution to `totalAssets` in such a run. -/
def repoAssetsSpec (repo : Repo) : Nat :=
  match repo.releases with
  | .error _ => 0
  | .ok rels => ((publishedOf rels).map smallCount).sum

def totalAssetsSpec (repos : List Repo) : Nat :=
  (repos.map repoAssetsSpec).sum

/-- A repository's contribution to `totalProcessedReleases` in such a run. -/
def repoProcessedSpec (repo : Repo) : Nat :=
  match repo.releases with
  | .error _ => 0
  | .ok rels => (repoEntriesSpec rels).length

def processedSpec (repos : List Repo) : Nat :=
  (repos.map repoProcessedSpec).sum

/-- Entries the cleaner keeps inside a repository directory: plain files and
`v`-prefixed subdirectories. -/
def keptByCleaner : Entry → Bool
  | .file _ _ => true
  | .dir n _ => strStartsWith n "v"

/-- Whether one fetch attempt delivered a fully buffered body. -/
def isSuccessOutcome : FetchOutcome → Bool
  | .success _ => true
  | _ => false

/-- Names of the non-`v`-prefixed subdirectories in a `readdirSync` snapshot —
the ones the cleaner's inner loop removes. -/
def badNames (s : List Entry) : List String :=
  s.filterMap (fun x =>
    match x with
    | .dir m _ => if strStartsWith m "v" then none else some m
    | .file _ _ => none)

/-- Whether an entry survives the removal of every directory whose name is in
`bad`. -/
def survivesBad (bad : List String) : Entry → Bool
  | .file _ _ => true
  | .dir n _ => !(bad.contains n)

/-! ## Basic lemmas about the content store -/

theorem dget_dremove (d : Disk) (p q : String) :
    dget (dremove d p) q = if q = p then none else dget d q := by
  induction d with
  | nil => simp [dremove, dget]
  | cons e rest ih =>
    obtain ⟨r, n⟩ := e
    simp only [dremove]
    by_cases hr : r = p
    · rw [if_pos hr, ih]
      by_cases hq : q = p
      · simp [hq]
      · have hrq : ¬ r = q := by rw [hr]; exact fun h => hq h.symm
        simp [hq, dget, hrq]
    · rw [if_neg hr]
      by_cases hrq : r = q
      · have hq : ¬ q = p := by rw [← hrq]; exact hr
        simp [dget, hrq, hq]
      · simp [dget, hrq, ih]

theorem dget_dset (d : Disk) (p : String) (n : Nat) (q : String) :
    dget (dset d p n) q = if q = p then some n else dget d q := by
  by_cases hq : q = p <;> simp [dset, dget, hq, Ne.symm, dget_dremove]

theorem dget_removeFileAndHashes (d : Disk) (p q : String) :
    dget (removeFileAndHashes d p) q =
      if q ∈ touchedPaths p then none else dget d q := by
  simp only [removeFileAndHashes, hashSiblings, List.foldl, touchedPaths,
    List.mem_cons, List.not_mem_nil, or_false, dget_dremove]
  by_cases h1 : q = p <;> by_cases h2 : q = p ++ ".sha256" <;>
    by_cases h3 : q = p ++ ".sha512" <;> by_cases h4 : q = p ++ ".md5" <;>
    simp [h1, h2, h3, h4]

theorem dget_writeHashFiles (d : Disk) (p q : String) :
    dget (writeHashFiles d p) q =
      if q = p ++ ".md5" then some 32
      else if q = p ++ ".sha512" then some 128
      else if q = p ++ ".sha256" then some 64
      else dget d q := by
  simp [writeHashFiles, dget_dset]

/-- A path never equals itself extended by a non-empty suffix. -/
theorem self_ne_append (p x : String) (hx : 0 < x.length) : p ≠ p ++ x := by
  intro h
  have hlen := congrArg String.length h
  rw [String.length_append] at hlen
  omega

theorem path_ne_sha256 (p : String) : p ≠ p ++ ".sha256" :=
  self_ne_append p ".sha256" (by decide)

theorem path_ne_sha512 (p : String) : p ≠ p ++ ".sha512" :=
  self_ne_append p ".sha512" (by decide)

theorem path_ne_md5 (p : String) : p ≠ p ++ ".md5" :=
  self_ne_append p ".md5" (by decide)

/-! ## Case equations for the fetcher and the asset processor -/

theorem processAssetDownload_ok (a : Asset) (p : String) (d : Disk)
    (hdl : a.dlOk = true) (hh : a.hashOk = true) :
    processAssetDownload a p d = (⟨true, true⟩, writeHashFiles (dset d p a.size) p) := by
  simp [processAssetDownload, hdl, hh, downloadAssetWithRetry, downloadFile,
    generateHashFiles]

theorem processAssetDownload_hashFail (a : Asset) (p : String) (d : Disk)
    (hdl : a.dlOk = true) (hh : a.hashOk = false) :
    processAssetDownload a p d = (⟨false, true⟩, dset d p a.size) := by
  simp [processAssetDownload, hdl, hh, downloadAssetWithRetry, downloadFile,
    generateHashFiles]

theorem processAssetDownload_dlFail (a : Asset) (p : String) (d : Disk)
    (hdl : a.dlOk = false) :
    processAssetDownload a p d = (⟨false, false⟩, d) := by
  simp [processAssetDownload, hdl, downloadAssetWithRetry, downloadFile]

theorem processAsset_big (dir : String) (a : Asset) (d : Disk)
    (h : maxSizeBytes < a.size) :
    processAsset dir a d =
      (⟨false, false⟩,
        if fileExists d (assetPathOf dir a) then
          removeFileAndHashes d (assetPathOf dir a)
        else d) := by
  simp [processAsset, h]

theorem processAsset_present (dir : String) (a : Asset) (d : Disk) (s : Nat)
    (h : ¬ maxSizeBytes < a.size) (hs : dget d (assetPathOf dir a) = some s)
    (hsmall : ¬ maxSizeBytes < s) :
    processAsset dir a d = (⟨true, false⟩, d) := by
  simp [processAsset, h, fileExists, hs, hsmall]

theorem processAsset_legacy (dir : String) (a : Asset) (d : Disk) (s : Nat)
    (h : ¬ maxSizeBytes < a.size) (hs : dget d (assetPathOf dir a) = some s)
    (hbig : maxSizeBytes < s) :
    processAsset dir a d =
      processAssetDownload a (assetPathOf dir a)
        (removeFileAndHashes d (assetPathOf dir a)) := by
  simp [processAsset, h, fileExists, hs, hbig]

theorem processAsset_new (dir : String) (a : Asset) (d : Disk)
    (h : ¬ maxSizeBytes < a.size) (hs : dget d (assetPathOf dir a) = none) :
    processAsset dir a d = processAssetDownload a (assetPathOf dir a) d := by
  simp [processAsset, h, fileExists, hs]

/-- Unpack non-membership in the touched-path list into the four inequalities. -/
theorem not_touched_iff (p q : String) :
    q ∉ touchedPaths p ↔
      ¬ q = p ∧ ¬ q = p ++ ".sha256" ∧ ¬ q = p ++ ".sha512" ∧ ¬ q = p ++ ".md5" := by
  simp [touchedPaths, hashSiblings, not_or]

theorem processAssetDownload_frame (a : Asset) (p : String) (d : Disk) (q : String)
    (hq : q ∉ touchedPaths p) :
    dget (processAssetDownload a p d).2 q = dget d q := by
  obtain ⟨hqp, hq1, hq2, hq3⟩ := (not_touched_iff p q).mp hq
  cases hdl : a.dlOk with
  | false => rw [processAssetDownload_dlFail a p d hdl]
  | true =>
    cases hh : a.hashOk with
    | false =>
      rw [processAssetDownload_hashFail a p d hdl hh]
      simp [dget_dset, hqp]
    | true =>
      rw [processAssetDownload_ok a p d hdl hh]
      simp [dget_writeHashFiles, dget_dset, hqp, hq1, hq2, hq3]

/-- `processAsset` reads and writes only the asset's own destination and its
hash siblings. -/
theorem processAsset_frame (dir : String) (a : Asset) (d : Disk) (q : String)
    (hq : q ∉ touchedPaths (assetPathOf dir a)) :
    dget (processAsset dir a d).2 q = dget d q := by
  by_cases hbig : maxSizeBytes < a.size
  · rw [processAsset_big dir a d hbig]
    by_cases he : fileExists d (assetPathOf dir a)
    · simp [he, dget_removeFileAndHashes, hq]
    · simp [he]
  · cases hs : dget d (assetPathOf dir a) with
    | some s =>
      by_cases hsb : maxSizeBytes < s
      · rw [processAsset_legacy dir a d s hbig hs hsb]
        rw [processAssetDownload_frame a _ _ q hq, dget_removeFileAndHashes]
        simp [hq]
      · rw [processAsset_present dir a d s hbig hs hsb]
    | none => rw [processAsset_new dir a d hbig hs, processAssetDownload_frame a _ _ q hq]

/-- When both oracles succeed, `processAsset` reports `downloaded` exactly for
within-ceiling assets, `isNew` exactly for available ones, and leaves the
destination in the canonical post-run state. -/
theorem processAsset_success (dir : String) (a : Asset) (d : Disk)
    (hdl : a.dlOk = true) (hh : a.hashOk = true) :
    (processAsset dir a d).1 = ⟨smallB a, availableNew d (assetPathOf dir a) a⟩
    ∧ afterGoodB (processAsset dir a d).2 (assetPathOf dir a) a = true := by
  have h256 := path_ne_sha256 (assetPathOf dir a)
  have h512 := path_ne_sha512 (assetPathOf dir a)
  have hmd5 := path_ne_md5 (assetPathOf dir a)
  by_cases hbig : maxSizeBytes < a.size
  · rw [processAsset_big dir a d hbig]
    constructor
    · simp [smallB, availableNew, Nat.not_le.mpr hbig]
    · by_cases he : fileExists d (assetPathOf dir a)
      · simp [he, afterGoodB, Nat.not_le.mpr hbig, dget_removeFileAndHashes, touchedPaths]
      · have : dget d (assetPathOf dir a) = none := by
          cases hd : dget d (assetPathOf dir a) with
          | none => rfl
          | some s => rw [fileExists, hd] at he; simp at he
        simp [he, afterGoodB, Nat.not_le.mpr hbig, this]
  · have hsm : a.size ≤ maxSizeBytes := Nat.not_lt.mp hbig
    cases hs : dget d (assetPathOf dir a) with
    | some s =>
      by_cases hsb : maxSizeBytes < s
      · rw [processAsset_legacy dir a d s hbig hs hsb,
          processAssetDownload_ok a _ _ hdl hh]
        constructor
        · simp [smallB, availableNew, hsm, hs, hsb]
        · simp [afterGoodB, hsm, dget_writeHashFiles, dget_dset, hmd5, h512, h256]
      · rw [processAsset_present dir a d s hbig hs hsb]
        constructor
        · simp [smallB, availableNew, hsm, hs, hsb]
        · simp [afterGoodB, hsm, hs, Nat.not_lt.mp hsb]
    | none =>
      rw [processAsset_new dir a d hbig hs, processAssetDownload_ok a _ _ hdl hh]
      constructor
      · simp [smallB, availableNew, hsm, hs]
      · simp [afterGoodB, hsm, dget_writeHashFiles, dget_dset, hmd5, h512, h256]

/-- On a destination already in the canonical post-run state, `processAsset`
reports existing assets without touching the disk or downloading anything. -/
theorem processAsset_stable (dir : String) (a : Asset) (d : Disk)
    (hg : afterGoodB d (assetPathOf dir a) a = true) :
    processAsset dir a d = (⟨smallB a, false⟩, d) := by
  by_cases hsm : a.size ≤ maxSizeBytes
  · cases hs : dget d (assetPathOf dir a) with
    | some s =>
      have hsb : s ≤ maxSizeBytes := by
        rw [afterGoodB, if_pos hsm, hs] at hg
        exact of_decide_eq_true hg
      rw [processAsset_present dir a d s (Nat.not_lt.mpr hsm) hs (Nat.not_lt.mpr hsb)]
      simp [smallB, hsm]
    | none => rw [afterGoodB, if_pos hsm, hs] at hg; simp at hg
  · have hnone : dget d (assetPathOf dir a) = none := by
      rw [afterGoodB, if_neg hsm] at hg
      exact Option.isNone_iff_eq_none.mp hg
    rw [processAsset_big dir a d (Nat.not_le.mp hsm)]
    simp [fileExists, hnone, smallB, hsm]

theorem append_right_ne (p : String) {x y : String} (hxy : x ≠ y) :
    p ++ x ≠ p ++ y := by
  intro h
  apply hxy
  apply String.ext
  have hd := congrArg String.data h
  rw [String.data_append, String.data_append] at hd
  exact List.append_cancel_left hd

/-! ## C4 — size gating and eviction in `processAsset` -/

/-- C4: an asset whose remote size exceeds the 50 MB ceiling is never
downloaded (the result is `{downloaded: false, isNew: false}` and nothing new
appears on disk), and an existing destination file is evicted together with
its three hash siblings — in the oversized-remote branch, in the
legacy-oversized on-disk branch before the (successful) re-download, and in
the legacy branch even when the re-download fails. -/
theorem processAsset_size_gating (dir : String) (a : Asset) (d : Disk) :
    (maxSizeBytes < a.size →
       (processAsset dir a d).1 = ⟨false, false⟩
       ∧ dget (processAsset dir a d).2 (assetPathOf dir a) = none
       ∧ (∀ q v, dget (processAsset dir a d).2 q = some v → dget d q = some v)
       ∧ (fileExists d (assetPathOf dir a) = true →
            ∀ h ∈ hashSiblings (assetPathOf dir a),
              dget (processAsset dir a d).2 h = none))
    ∧ (∀ s, a.size ≤ maxSizeBytes → dget d (assetPathOf dir a) = some s →
        maxSizeBytes < s → a.dlOk = true → a.hashOk = true →
          dget (processAsset dir a d).2 (assetPathOf dir a) = some a.size
          ∧ dget (processAsset dir a d).2 (assetPathOf dir a ++ ".sha256") = some 64
          ∧ dget (processAsset dir a d).2 (assetPathOf dir a ++ ".sha512") = some 128
          ∧ dget (processAsset dir a d).2 (assetPathOf dir a ++ ".md5") = some 32)
    ∧ (∀ s, a.size ≤ maxSizeBytes → dget d (assetPathOf dir a) = some s →
        maxSizeBytes < s → a.dlOk = false →
          (processAsset dir a d).1 = ⟨false, false⟩
          ∧ dget (processAsset dir a d).2 (assetPathOf dir a) = none
          ∧ ∀ h ∈ hashSiblings (assetPathOf dir a),
              dget (processAsset dir a d).2 h = none) := by
  refine ⟨fun hbig => ?_, fun s hsm hs hsb hdl hh => ?_, fun s hsm hs hsb hdl => ?_⟩
  · rw [processAsset_big dir a d hbig]
    by_cases he : fileExists d (assetPathOf dir a)
    · refine ⟨rfl, ?_, ?_, ?_⟩
      · simp [he, dget_removeFileAndHashes, touchedPaths]
      · intro q v hv
        simp only [he, if_true] at hv
        rw [dget_removeFileAndHashes] at hv
        by_cases hq : q ∈ touchedPaths (assetPathOf dir a)
        · simp [hq] at hv
        · simpa [hq] using hv
      · intro _ h hmem
        simp only [he, if_true]
        rw [dget_removeFileAndHashes, if_pos]
        exact List.mem_cons_of_mem _ hmem
    · have he' : fileExists d (assetPathOf dir a) = false := by simpa using he
      have hd : dget d (assetPathOf dir a) = none := by
        cases hd : dget d (assetPathOf dir a) with
        | none => rfl
        | some s => rw [fileExists, hd] at he'; simp at he'
      refine ⟨rfl, ?_, ?_, ?_⟩
      · simp [he', hd]
      · intro q v hv
        simpa [he'] using hv
      · intro habs
        rw [he'] at habs
        simp at habs
  · rw [processAsset_legacy dir a d s (Nat.not_lt.mpr hsm) hs hsb,
      processAssetDownload_ok a _ _ hdl hh]
    have h1 := path_ne_sha256 (assetPathOf dir a)
    have h2 := path_ne_sha512 (assetPathOf dir a)
    have h3 := path_ne_md5 (assetPathOf dir a)
    have h12 : assetPathOf dir a ++ ".sha256" ≠ assetPathOf dir a ++ ".sha512" :=
      append_right_ne _ (by decide)
    have h13 : assetPathOf dir a ++ ".sha256" ≠ assetPathOf dir a ++ ".md5" :=
      append_right_ne _ (by decide)
    have h23 : assetPathOf dir a ++ ".sha512" ≠ assetPathOf dir a ++ ".md5" :=
      append_right_ne _ (by decide)
    refine ⟨?_, ?_, ?_, ?_⟩ <;>
      simp [dget_writeHashFiles, dget_dset, h1, h2, h3, h12, h13, h23]
  · rw [processAsset_legacy dir a d s (Nat.not_lt.mpr hsm) hs hsb,
      processAssetDownload_dlFail a _ _ hdl]
    refine ⟨rfl, ?_, ?_⟩
    · simp [dget_removeFileAndHashes, touchedPaths]
    · intro h hmem
      rw [dget_removeFileAndHashes, if_pos]
      exact List.mem_cons_of_mem _ hmem

/-- Witness for C4: an oversized remote asset (52428801 bytes) with an
on-disk copy is evicted and reported not-downloaded, and a within-ceiling
asset over a legacy oversized file is evicted and re-downloaded. -/
theorem processAsset_size_gating_witness :
    (processAsset "r/v1.0.0" ⟨"big.bin", 52428801, true, true⟩
        [("r/v1.0.0/big.bin", 52428801), ("r/v1.0.0/big.bin.sha256", 64)]).1
      = ⟨false, false⟩
    ∧ dget (processAsset "r/v1.0.0" ⟨"big.bin", 52428801, true, true⟩
        [("r/v1.0.0/big.bin", 52428801), ("r/v1.0.0/big.bin.sha256", 64)]).2
        "r/v1.0.0/big.bin.sha256" = none
    ∧ dget (processAsset "r/v1.0.0" ⟨"x.zip", 10, true, true⟩
        [("r/v1.0.0/x.zip", 52428801)]).2
        (assetPathOf "r/v1.0.0" ⟨"x.zip", 10, true, true⟩) = some 10 := by
  refine ⟨((processAsset_size_gating "r/v1.0.0" _ _).1 (by decide)).1, ?_, ?_⟩
  · exact ((processAsset_size_gating "r/v1.0.0"
      ⟨"big.bin", 52428801, true, true⟩ _).1 (by decide)).2.2.2 (by decide)
      "r/v1.0.0/big.bin.sha256" (by decide)
  · exact ((processAsset_size_gating "r/v1.0.0" ⟨"x.zip", 10, true, true⟩ _).2.1
      52428801 (by decide) (by decide) (by decide) rfl rfl).1

/-! ## C6 — failed download attempts write nothing -/

/-- C6: a failed `downloadFile` attempt (non-ok status or a transport error
while buffering the body) writes nothing — the destination file is created
only after the whole body is buffered — so a run of `downloadAssetWithRetry`
whose every attempt fails (including the rethrowing final attempt) leaves the
disk exactly as it was. -/
theorem download_failure_writes_nothing (outcomes : List FetchOutcome)
    (p : String) (d : Disk)
    (hfail : ∀ o ∈ outcomes, isSuccessOutcome o = false) :
    (∀ o ∈ outcomes,
       (downloadFile o p d).1 = d ∧ ∃ e, (downloadFile o p d).2 = Except.error e)
    ∧ (downloadAssetWithRetry outcomes p d).1 = d
    ∧ (outcomes ≠ [] →
        ∃ e, (downloadAssetWithRetry outcomes p d).2 = Except.error e) := by
  have hDF : ∀ o ∈ outcomes,
      (downloadFile o p d).1 = d ∧ ∃ e, (downloadFile o p d).2 = Except.error e := by
    intro o ho
    cases o with
    | httpError s => exact ⟨rfl, _, rfl⟩
    | bodyError m => exact ⟨rfl, _, rfl⟩
    | success n => exact absurd (hfail _ ho) (by simp [isSuccessOutcome])
  refine ⟨hDF, ?_⟩
  clear hDF
  induction outcomes with
  | nil => exact ⟨rfl, fun h => absurd rfl h⟩
  | cons o rest ih =>
    have ho : isSuccessOutcome o = false := hfail o (List.mem_cons_self o rest)
    have hrest : ∀ o ∈ rest, isSuccessOutcome o = false :=
      fun x hx => hfail x (List.mem_cons_of_mem o hx)
    cases rest with
    | nil =>
      cases o with
      | httpError s => exact ⟨rfl, fun _ => ⟨_, rfl⟩⟩
      | bodyError m => exact ⟨rfl, fun _ => ⟨_, rfl⟩⟩
      | success n => simp [isSuccessOutcome] at ho
    | cons o2 rest2 =>
      have step : downloadAssetWithRetry (o :: o2 :: rest2) p d =
          downloadAssetWithRetry (o2 :: rest2) p d := by
        cases o with
        | httpError s => rfl
        | bodyError m => rfl
        | success n => simp [isSuccessOutcome] at ho
      rw [step]
      obtain ⟨h1, h2⟩ := ih hrest
      exact ⟨h1, fun _ => h2 (by simp)⟩

/-- Witness for C6: three failing attempts against an existing destination
leave the destination byte-for-byte as it was and surface an error. -/
theorem download_failure_writes_nothing_witness :
    (downloadAssetWithRetry
        [FetchOutcome.httpError "Internal Server Error",
         FetchOutcome.bodyError "socket reset",
         FetchOutcome.httpError "Bad Gateway"]
        "app/v1.0.0/app.zip" [("app/v1.0.0/app.zip", 7)]).1
      = [("app/v1.0.0/app.zip", 7)]
    ∧ ∃ e, (downloadAssetWithRetry
        [FetchOutcome.httpError "Internal Server Error",
         FetchOutcome.bodyError "socket reset",
         FetchOutcome.httpError "Bad Gateway"]
        "app/v1.0.0/app.zip" [("app/v1.0.0/app.zip", 7)]).2 = Except.error e := by
  have h := download_failure_writes_nothing
    [FetchOutcome.httpError "Internal Server Error",
     FetchOutcome.bodyError "socket reset",
     FetchOutcome.httpError "Bad Gateway"]
    "app/v1.0.0/app.zip" [("app/v1.0.0/app.zip", 7)] (by decide)
  exact ⟨h.2.1, h.2.2 (by simp)⟩

/-! ## C10 — hash-generation failure leaves an uncounted but present file -/

/-- C10: when the download succeeds but hash generation fails, `processAsset`
returns `{downloaded: false, isNew: true}`, so the surrounding release
contributes neither to `assetCount` nor to the new-asset counter; the
downloaded file stays on disk with no hash artifacts, and the next run finds
it via the existence check and reports it `{downloaded: true, isNew: false}`
without ever generating the missing artifacts. -/
theorem processAsset_hashFailure_uncounted (rn tag : String) (a : Asset) (d : Disk)
    (hsm : a.size ≤ maxSizeBytes)
    (hne : fileExists d (assetPathOf (rn ++ "/" ++ tag) a) = false)
    (hdl : a.dlOk = true) (hh : a.hashOk = false) :
    (processAsset (rn ++ "/" ++ tag) a d).1 = ⟨false, true⟩
    ∧ dget (processAsset (rn ++ "/" ++ tag) a d).2 (assetPathOf (rn ++ "/" ++ tag) a)
        = some a.size
    ∧ (∀ h ∈ hashSiblings (assetPathOf (rn ++ "/" ++ tag) a),
        dget (processAsset (rn ++ "/" ++ tag) a d).2 h = dget d h)
    ∧ processRelease rn ⟨tag, false, false, [a]⟩ 0 0 d
        = (0, 0, (processAsset (rn ++ "/" ++ tag) a d).2)
    ∧ (processAsset (rn ++ "/" ++ tag) a (processAsset (rn ++ "/" ++ tag) a d).2).1
        = ⟨true, false⟩
    ∧ (processAsset (rn ++ "/" ++ tag) a (processAsset (rn ++ "/" ++ tag) a d).2).2
        = (processAsset (rn ++ "/" ++ tag) a d).2 := by
  have hnone : dget d (assetPathOf (rn ++ "/" ++ tag) a) = none := by
    cases hd : dget d (assetPathOf (rn ++ "/" ++ tag) a) with
    | none => rfl
    | some s => rw [fileExists, hd] at hne; simp at hne
  have hstep : processAsset (rn ++ "/" ++ tag) a d =
      (⟨false, true⟩, dset d (assetPathOf (rn ++ "/" ++ tag) a) a.size) := by
    rw [processAsset_new _ a d (Nat.not_lt.mpr hsm) hnone,
      processAssetDownload_hashFail a _ _ hdl hh]
  have hsecond : processAsset (rn ++ "/" ++ tag) a
      (dset d (assetPathOf (rn ++ "/" ++ tag) a) a.size) = (⟨true, false⟩,
        dset d (assetPathOf (rn ++ "/" ++ tag) a) a.size) :=
    processAsset_present _ a _ a.size (Nat.not_lt.mpr hsm)
      (by rw [dget_dset]; simp) (Nat.not_lt.mpr hsm)
  refine ⟨by rw [hstep], by rw [hstep, dget_dset]; simp, ?_, ?_, ?_, ?_⟩
  · intro h hmem
    rw [hstep, dget_dset, if_neg]
    simp only [hashSiblings, List.mem_cons, List.not_mem_nil, or_false] at hmem
    rcases hmem with h1 | h2 | h3
    · rw [h1]; exact (path_ne_sha256 _).symm
    · rw [h2]; exact (path_ne_sha512 _).symm
    · rw [h3]; exact (path_ne_md5 _).symm
  · rw [processRelease]
    simp only [List.length_cons, List.length_nil]
    rw [if_neg (by omega)]
    rw [processAssetsLoop, if_neg (by omega)]
    simp [hstep, processAssetsLoop]
  · rw [hstep, hsecond]
  · rw [hstep, hsecond]

/-- Witness for C10 at a concrete asset whose hash step fails. -/
theorem processAsset_hashFailure_uncounted_witness :
    (processAsset "app/v2.0.0" ⟨"pkg.tar", 11, true, false⟩ []).1 = ⟨false, true⟩
    ∧ processRelease "app" ⟨"v2.0.0", false, false, [⟨"pkg.tar", 11, true, false⟩]⟩ 0 0 []
        = (0, 0, (processAsset "app/v2.0.0" ⟨"pkg.tar", 11, true, false⟩ []).2)
    ∧ (processAsset "app/v2.0.0" ⟨"pkg.tar", 11, true, false⟩
        (processAsset "app/v2.0.0" ⟨"pkg.tar", 11, true, false⟩ []).2).1
        = ⟨true, false⟩ := by
  have h := processAsset_hashFailure_uncounted "app" "v2.0.0"
    ⟨"pkg.tar", 11, true, false⟩ [] (by decide) (by decide) rfl rfl
  exact ⟨h.1, h.2.2.2.1, h.2.2.2.2.1⟩

/-! ## C9 — the stale-state cleaner -/

/-- The cleaner's inner loop, run over any `readdirSync` snapshot `s` from any
starting array, keeps exactly the entries not named like a removed directory. -/
theorem cleanup_foldl_eq (s : List Entry) : ∀ acc : List Entry,
    s.foldl (fun acc e =>
      match e with
      | .dir n _ => if strStartsWith n "v" then acc else removeDirNamed acc n
      | .file _ _ => acc) acc
    = acc.filter (survivesBad (badNames s)) := by
  induction s with
  | nil =>
    intro acc
    simp only [List.foldl]
    symm
    rw [List.filter_eq_self]
    intro e _
    cases e <;> simp [survivesBad, badNames]
  | cons x s ih =>
    intro acc
    cases x with
    | file fn fsz =>
      simp only [List.foldl]
      rw [ih]
      apply List.filter_congr
      intro e _
      cases e <;> simp [survivesBad, badNames, List.filterMap_cons]
    | dir m mch =>
      by_cases hv : strStartsWith m "v"
      · simp only [List.foldl, hv, if_true]
        rw [ih]
        apply List.filter_congr
        intro e _
        cases e <;> simp [survivesBad, badNames, List.filterMap_cons, hv]
      · simp only [List.foldl]
        rw [if_neg hv, ih, removeDirNamed, List.filter_filter]
        apply List.filter_congr
        intro e _
        cases e with
        | file _ _ => simp [survivesBad]
        | dir n _ =>
          simp only [survivesBad, badNames, List.filterMap_cons, hv, if_false]
          by_cases h : n = m <;> simp [h]

/-- The cleaner's per-repository pass removes exactly the immediate
subdirectories whose name does not start with `v`. -/
theorem cleanupRepoContents_eq_filter (ch : List Entry) :
    cleanupRepoContents ch = ch.filter keptByCleaner := by
  rw [cleanupRepoContents, cleanup_foldl_eq]
  apply List.filter_congr
  intro e he
  cases e with
  | file _ _ => simp [survivesBad, keptByCleaner]
  | dir n c =>
    by_cases hv : strStartsWith n "v"
    · have hnot : n ∉ badNames ch := by
        intro hmem
        rw [badNames, List.mem_filterMap] at hmem
        obtain ⟨x, _, hfx⟩ := hmem
        cases x with
        | file _ _ => simp at hfx
        | dir m mch =>
          have hfx' : (if strStartsWith m "v" = true then none else some m) = some n := hfx
          by_cases hmv : strStartsWith m "v"
          · simp [hmv] at hfx'
          · rw [if_neg hmv] at hfx'
            have hmn : m = n := Option.some.inj hfx'
            rw [hmn] at hmv
            exact hmv hv
      simp only [survivesBad, keptByCleaner, hv]
      simpa using hnot
    · have hin : n ∈ badNames ch := by
        rw [badNames, List.mem_filterMap]
        exact ⟨Entry.dir n c, he, by simp [hv]⟩
      simp [survivesBad, keptByCleaner, hv, hin]

/-- C9: for every non-reserved top-level directory, the cleaner removes
exactly its immediate non-`v`-prefixed subdirectories (files and `v`-prefixed
directories survive); a repository whose `readdirSync` throws is left exactly
as it was, while every other repository is still cleaned. -/
theorem cleanup_removes_exactly_nonV (readdirFails : String → Bool)
    (fs : List Entry) (n : String) (ch : List Entry)
    (hmem : Entry.dir n ch ∈ fs) (hres : notReservedTop n = true) :
    (readdirFails n = false →
       Entry.dir n (ch.filter keptByCleaner) ∈
         cleanupNonVPrefixedReleases readdirFails fs)
    ∧ (readdirFails n = true →
       Entry.dir n ch ∈ cleanupNonVPrefixedReleases readdirFails fs) := by
  constructor
  · intro hfail
    rw [cleanupNonVPrefixedReleases]
    apply List.mem_map.mpr
    refine ⟨Entry.dir n ch, hmem, ?_⟩
    simp [hres, hfail, cleanupRepoContents_eq_filter]
  · intro hfail
    rw [cleanupNonVPrefixedReleases]
    apply List.mem_map.mpr
    refine ⟨Entry.dir n ch, hmem, ?_⟩
    simp [hres, hfail]

/-- Witness for C9: `latest` is removed while `v1.2.3` survives, and a
repository whose directory scan throws keeps its junk while its sibling is
still cleaned. -/
theorem cleanup_removes_exactly_nonV_witness :
    Entry.dir "app"
        ([Entry.dir "latest" [Entry.file "a.zip" 3],
          Entry.dir "v1.2.3" [Entry.file "b.zip" 4]].filter keptByCleaner) ∈
      cleanupNonVPrefixedReleases (fun s => s == "broken")
        [Entry.dir "app"
          [Entry.dir "latest" [Entry.file "a.zip" 3],
           Entry.dir "v1.2.3" [Entry.file "b.zip" 4]],
         Entry.dir "broken" [Entry.dir "junk" []]]
    ∧ Entry.dir "broken" [Entry.dir "junk" []] ∈
      cleanupNonVPrefixedReleases (fun s => s == "broken")
        [Entry.dir "app"
          [Entry.dir "latest" [Entry.file "a.zip" 3],
           Entry.dir "v1.2.3" [Entry.file "b.zip" 4]],
         Entry.dir "broken" [Entry.dir "junk" []]] := by
  constructor
  · exact (cleanup_removes_exactly_nonV (fun s => s == "broken") _ "app"
      [Entry.dir "latest" [Entry.file "a.zip" 3],
       Entry.dir "v1.2.3" [Entry.file "b.zip" 4]]
      (by simp) (by decide)).1 rfl
  · exact (cleanup_removes_exactly_nonV (fun s => s == "broken") _ "broken"
      [Entry.dir "junk" []] (by simp) (by decide)).2 rfl

/-! ## Sorting infrastructure -/

theorem mem_insertBy {α : Type} (le : α → α → Bool) (a x : α) (l : List α) :
    x ∈ insertBy le a l ↔ x = a ∨ x ∈ l := by
  induction l with
  | nil => simp [insertBy]
  | cons b t ih =>
    by_cases h : le b a
    · rw [insertBy, if_pos h]
      simp only [List.mem_cons, ih]
      tauto
    · rw [insertBy, if_neg h]
      simp only [List.mem_cons]

theorem mem_sortBy {α : Type} (le : α → α → Bool) (x : α) (l : List α) :
    x ∈ sortBy le l ↔ x ∈ l := by
  have aux : ∀ (t acc : List α),
      (x ∈ t.foldl (fun acc y => insertBy le y acc) acc ↔ x ∈ acc ∨ x ∈ t) := by
    intro t
    induction t with
    | nil => intro acc; simp
    | cons y t ih =>
      intro acc
      rw [List.foldl_cons, ih, mem_insertBy]
      simp only [List.mem_cons]
      tauto
  rw [sortBy, aux]
  simp

theorem pairwise_insertBy {α : Type} (le : α → α → Bool)
    (htot : ∀ a b, le a b = true ∨ le b a = true)
    (htrans : ∀ a b c, le a b = true → le b c = true → le a c = true)
    (a : α) (l : List α) (hl : List.Pairwise (fun x y => le x y = true) l) :
    List.Pairwise (fun x y => le x y = true) (insertBy le a l) := by
  induction l with
  | nil => simp [insertBy]
  | cons b t ih =>
    rcases List.pairwise_cons.mp hl with ⟨hb, ht⟩
    by_cases h : le b a
    · rw [insertBy, if_pos h]
      apply List.pairwise_cons.mpr
      refine ⟨?_, ih ht⟩
      intro x hx
      rcases (mem_insertBy le a x t).mp hx with hxa | hxt
      · rw [hxa]; exact h
      · exact hb x hxt
    · rw [insertBy, if_neg h]
      apply List.pairwise_cons.mpr
      have hab : le a b = true := by
        rcases htot a b with h1 | h1
        · exact h1
        · exact absurd h1 h
      refine ⟨?_, hl⟩
      intro x hx
      rcases List.mem_cons.mp hx with hxb | hxt
      · rw [hxb]; exact hab
      · exact htrans a b x hab (hb x hxt)

theorem pairwise_sortBy {α : Type} (le : α → α → Bool)
    (htot : ∀ a b, le a b = true ∨ le b a = true)
    (htrans : ∀ a b c, le a b = true → le b c = true → le a c = true)
    (l : List α) : List.Pairwise (fun x y => le x y = true) (sortBy le l) := by
  have aux : ∀ (t acc : List α), List.Pairwise (fun x y => le x y = true) acc →
      List.Pairwise (fun x y => le x y = true)
        (t.foldl (fun acc x => insertBy le x acc) acc) := by
    intro t
    induction t with
    | nil => intro acc h; exact h
    | cons x t ih =>
      intro acc h
      exact ih _ (pairwise_insertBy le htot htrans x acc h)
  exact aux l [] List.Pairwise.nil

/-! ## The code-point comparator is total and transitive -/

theorem cmpCharsRaw_cons_ne_gt (x y : Char) (xs ys : List Char) :
    cmpCharsRaw (x :: xs) (y :: ys) ≠ .gt ↔
      (x.toNat < y.toNat ∨ (x.toNat = y.toNat ∧ cmpCharsRaw xs ys ≠ .gt)) := by
  simp only [cmpCharsRaw]
  rcases h : compare x.toNat y.toNat with _ | _ | _
  · have hxy := Nat.compare_eq_lt.mp h
    constructor
    · intro _
      exact Or.inl hxy
    · intro _ hc
      exact Ordering.noConfusion hc
  · have hxy := Nat.compare_eq_eq.mp h
    constructor
    · intro h1
      exact Or.inr ⟨hxy, h1⟩
    · rintro (hlt | ⟨_, h1⟩)
      · exact ((by omega : False)).elim
      · exact h1
  · have hxy := Nat.compare_eq_gt.mp h
    constructor
    · intro h1
      exact absurd rfl h1
    · rintro (hlt | ⟨heq, _⟩)
      · exact ((by omega : False)).elim
      · exact ((by omega : False)).elim

theorem cmpCharsRaw_le_trans :
    ∀ (a b c : List Char), cmpCharsRaw a b ≠ .gt → cmpCharsRaw b c ≠ .gt →
      cmpCharsRaw a c ≠ .gt
  | [], _, c, _, _ => by cases c <;> simp [cmpCharsRaw]
  | _ :: _, [], _, h1, _ => by simp [cmpCharsRaw] at h1
  | _ :: _, _ :: _, [], _, h2 => by simp [cmpCharsRaw] at h2
  | x :: xs, y :: ys, z :: zs, h1, h2 => by
    rw [cmpCharsRaw_cons_ne_gt] at h1 h2 ⊢
    rcases h1 with h1 | ⟨e1, t1⟩
    · rcases h2 with h2 | ⟨e2, t2⟩
      · exact Or.inl (by omega)
      · exact Or.inl (by omega)
    · rcases h2 with h2 | ⟨e2, t2⟩
      · exact Or.inl (by omega)
      · exact Or.inr ⟨by omega, cmpCharsRaw_le_trans xs ys zs t1 t2⟩

theorem cmpCharsRaw_total (a : List Char) : ∀ (b : List Char),
    cmpCharsRaw a b ≠ .gt ∨ cmpCharsRaw b a ≠ .gt := by
  induction a with
  | nil =>
    intro b
    left
    cases b <;> simp [cmpCharsRaw]
  | cons x xs ih =>
    intro b
    cases b with
    | nil =>
      right
      simp [cmpCharsRaw]
    | cons y ys =>
      rw [cmpCharsRaw_cons_ne_gt, cmpCharsRaw_cons_ne_gt]
      rcases Nat.lt_trichotomy x.toNat y.toNat with h | h | h
      · exact Or.inl (Or.inl h)
      · rcases ih ys with h1 | h1
        · exact Or.inl (Or.inr ⟨h, h1⟩)
        · exact Or.inr (Or.inr ⟨h.symm, h1⟩)
      · exact Or.inr (Or.inl h)

theorem repoAscLe_total (a b : RepoEntry) :
    repoAscLe a b = true ∨ repoAscLe b a = true := by
  rcases cmpCharsRaw_total a.name.data b.name.data with h | h
  · left
    simpa [repoAscLe, strCmp] using h
  · right
    simpa [repoAscLe, strCmp] using h

theorem repoAscLe_trans (a b c : RepoEntry)
    (h1 : repoAscLe a b = true) (h2 : repoAscLe b c = true) :
    repoAscLe a c = true := by
  simp only [repoAscLe, strCmp, decide_eq_true_eq] at h1 h2 ⊢
  exact cmpCharsRaw_le_trans _ _ _ h1 h2

/-! ## C5 — release ordering -/

/-- Counterexample to C5: the Walker (`processRepository`) pushes releases in
discovery-enumeration order and never sorts them.  With releases enumerated as
`[v1.9.0, v2.0.0]`, its per-repository record keeps that order, yet under the
version-aware descending rule `v1.9.0` may not precede `v2.0.0`
(`relDescLe ⟨v1.9.0⟩ ⟨v2.0.0⟩` is false), so the record is not sorted by the
release ordering rule. -/
theorem walker_release_order_counterexample :
    (syncReleaseAssetsState
        [⟨"app", Except.ok
          [⟨"v1.9.0", false, false, [⟨"a.zip", 1, true, true⟩]⟩,
           ⟨"v2.0.0", false, false, [⟨"b.zip", 1, true, true⟩]⟩]⟩]
        false 0 []).repositoryData
      = [⟨"app", [⟨"v1.9.0", 1⟩, ⟨"v2.0.0", 1⟩]⟩]
    ∧ relDescLe ⟨"v1.9.0", 1⟩ ⟨"v2.0.0", 1⟩ = false
    ∧ sortBy relDescLe [⟨"v1.9.0", 1⟩, ⟨"v2.0.0", 1⟩]
        = [⟨"v2.0.0", 1⟩, ⟨"v1.9.0", 1⟩] := by
  decide

/-- C5 (amended): the version-aware descending ordering holds in the Manifest
Builder — `scanRepositoryDirectory` sorts the releases it finds, yielding
`[v2.0.0, v1.10.0, v1.9.0]` whatever order the directory listing produced
(all six permutations); the Walker's record keeps enumeration order instead. -/
theorem manifest_release_ordering :
    (scanRepositoryDirectory "app"
        [Entry.dir "v1.9.0" [Entry.file "a.zip" 1],
         Entry.dir "v1.10.0" [Entry.file "b.zip" 1],
         Entry.dir "v2.0.0" [Entry.file "c.zip" 1]]
      = some ⟨"app", false, [⟨"v2.0.0", 1⟩, ⟨"v1.10.0", 1⟩, ⟨"v1.9.0", 1⟩]⟩)
    ∧ (scanRepositoryDirectory "app"
        [Entry.dir "v1.9.0" [Entry.file "a.zip" 1],
         Entry.dir "v2.0.0" [Entry.file "c.zip" 1],
         Entry.dir "v1.10.0" [Entry.file "b.zip" 1]]
      = some ⟨"app", false, [⟨"v2.0.0", 1⟩, ⟨"v1.10.0", 1⟩, ⟨"v1.9.0", 1⟩]⟩)
    ∧ (scanRepositoryDirectory "app"
        [Entry.dir "v1.10.0" [Entry.file "b.zip" 1],
         Entry.dir "v1.9.0" [Entry.file "a.zip" 1],
         Entry.dir "v2.0.0" [Entry.file "c.zip" 1]]
      = some ⟨"app", false, [⟨"v2.0.0", 1⟩, ⟨"v1.10.0", 1⟩, ⟨"v1.9.0", 1⟩]⟩)
    ∧ (scanRepositoryDirectory "app"
        [Entry.dir "v1.10.0" [Entry.file "b.zip" 1],
         Entry.dir "v2.0.0" [Entry.file "c.zip" 1],
         Entry.dir "v1.9.0" [Entry.file "a.zip" 1]]
      = some ⟨"app", false, [⟨"v2.0.0", 1⟩, ⟨"v1.10.0", 1⟩, ⟨"v1.9.0", 1⟩]⟩)
    ∧ (scanRepositoryDirectory "app"
        [Entry.dir "v2.0.0" [Entry.file "c.zip" 1],
         Entry.dir "v1.9.0" [Entry.file "a.zip" 1],
         Entry.dir "v1.10.0" [Entry.file "b.zip" 1]]
      = some ⟨"app", false, [⟨"v2.0.0", 1⟩, ⟨"v1.10.0", 1⟩, ⟨"v1.9.0", 1⟩]⟩)
    ∧ (scanRepositoryDirectory "app"
        [Entry.dir "v2.0.0" [Entry.file "c.zip" 1],
         Entry.dir "v1.10.0" [Entry.file "b.zip" 1],
         Entry.dir "v1.9.0" [Entry.file "a.zip" 1]]
      = some ⟨"app", false, [⟨"v2.0.0", 1⟩, ⟨"v1.10.0", 1⟩, ⟨"v1.9.0", 1⟩]⟩)
    ∧ (syncReleaseAssetsState
        [⟨"app", Except.ok
          [⟨"v1.9.0", false, false, [⟨"a.zip", 1, true, true⟩]⟩,
           ⟨"v2.0.0", false, false, [⟨"b.zip", 1, true, true⟩]⟩]⟩]
        false 0 []).repositoryData
      = [⟨"app", [⟨"v1.9.0", 1⟩, ⟨"v2.0.0", 1⟩]⟩] := by
  decide

/-! ## C7 — the shape of the manifest -/

theorem scanReleaseDirectory_some (tag : String) (ch : List Entry) (re : RelEntry)
    (h : scanReleaseDirectory tag ch = some re) :
    0 < (ch.filter isQualifyingFile).length ∧ re.tag = tag := by
  simp only [scanReleaseDirectory] at h
  by_cases hc : 0 < (ch.filter isQualifyingFile).length
  · rw [if_pos hc] at h
    exact ⟨hc, by rw [← Option.some.inj h]⟩
  · rw [if_neg hc] at h
    cases h

theorem scanRepositoryDirectory_some (name : String) (ch : List Entry)
    (rd : RepoEntry) (h : scanRepositoryDirectory name ch = some rd) :
    rd.name = name
    ∧ ∃ tag tch, Entry.dir tag tch ∈ ch ∧ strStartsWith tag "v" = true
        ∧ 0 < (tch.filter isQualifyingFile).length := by
  simp only [scanRepositoryDirectory] at h
  by_cases hlen : 0 < (sortBy relDescLe (ch.filterMap (fun e =>
      match e with
      | .dir dn dch => if strStartsWith dn "v" then scanReleaseDirectory dn dch else none
      | .file _ _ => none))).length
  · rw [if_pos hlen] at h
    have hname : rd.name = name := by rw [← Option.some.inj h]
    refine ⟨hname, ?_⟩
    obtain ⟨x, hx⟩ := List.exists_mem_of_length_pos hlen
    rw [mem_sortBy, List.mem_filterMap] at hx
    obtain ⟨e, he, hfe⟩ := hx
    cases e with
    | file _ _ => simp at hfe
    | dir tag tch =>
      have hfe' : (if strStartsWith tag "v" then scanReleaseDirectory tag tch
          else none) = some x := hfe
      by_cases hv : strStartsWith tag "v"
      · rw [if_pos hv] at hfe'
        exact ⟨tag, tch, he, hv, (scanReleaseDirectory_some tag tch x hfe').1⟩
      · rw [if_neg hv] at hfe'
        cases hfe'
  · rw [if_neg hlen] at h
    cases h

/-- C7: `generatePackagesJson` produces a document with exactly the fields
`lastUpdated`, `repositories` and `stats`; the statistics are the integer
summations over the scanned tree; repositories are sorted by name ascending
(under the code-point model of `localeCompare`); and a repository appears only
if some top-level directory of its name contains a `v`-prefixed release
directory with at least one qualifying asset file (hash artifacts and
`README.md` excluded). -/
theorem generatePackagesJson_shape (fs : List Entry) (meta : List RepoMeta)
    (now : String) :
    (generatePackagesJson fs meta now).lastUpdated = now
    ∧ (generatePackagesJson fs meta now).stats.totalRepositories
        = (generatePackagesJson fs meta now).repositories.length
    ∧ (generatePackagesJson fs meta now).stats.totalReleases
        = ((generatePackagesJson fs meta now).repositories.map
            (fun r => r.releases.length)).sum
    ∧ (generatePackagesJson fs meta now).stats.totalAssets
        = ((generatePackagesJson fs meta now).repositories.map
            (fun r => (r.releases.map (fun rel => rel.assetCount)).sum)).sum
    ∧ List.Pairwise (fun a b => repoAscLe a b = true)
        (generatePackagesJson fs meta now).repositories
    ∧ ∀ r ∈ (generatePackagesJson fs meta now).repositories,
        r.name ≠ ".git"
        ∧ ∃ ch, Entry.dir r.name ch ∈ fs
            ∧ ∃ tag tch, Entry.dir tag tch ∈ ch ∧ strStartsWith tag "v" = true
                ∧ 0 < (tch.filter isQualifyingFile).length := by
  refine ⟨rfl, rfl, rfl, rfl, ?_, ?_⟩
  · exact pairwise_sortBy repoAscLe repoAscLe_total repoAscLe_trans _
  · intro r hr
    have hr' : r ∈ scannedRepos fs meta := by
      rw [← mem_sortBy repoAscLe]
      exact hr
    rw [scannedRepos, List.mem_filterMap] at hr'
    obtain ⟨e, he, hfe⟩ := hr'
    cases e with
    | file _ _ => simp at hfe
    | dir n ch =>
      have hfe' : (if n = ".git" then none
          else
            match scanRepositoryDirectory n ch with
            | none => none
            | some rd =>
              match metaFind meta n with
              | some m => some { rd with archived := m.archived }
              | none => some rd) = some r := hfe
      by_cases hgit : n = ".git"
      · rw [if_pos hgit] at hfe'
        cases hfe'
      · rw [if_neg hgit] at hfe'
        cases hscan : scanRepositoryDirectory n ch with
        | none => rw [hscan] at hfe'; cases hfe'
        | some rd =>
          rw [hscan] at hfe'
          obtain ⟨hname, tag, tch, htag, hv, hq⟩ :=
            scanRepositoryDirectory_some n ch rd hscan
          have hrname : r.name = n := by
            cases hmf : metaFind meta n with
            | none => rw [hmf] at hfe'; rw [← Option.some.inj hfe']; exact hname
            | some m => rw [hmf] at hfe'; rw [← Option.some.inj hfe']; exact hname
          refine ⟨by rw [hrname]; exact hgit, ch, by rw [hrname]; exact he,
            tag, tch, htag, hv, hq⟩

/-- Witness for C7 on a concrete tree: two repositories (one overlaid as
archived), sorted output, correct statistics, and provenance of `lib`. -/
theorem generatePackagesJson_shape_witness :
    (generatePackagesJson
        [Entry.dir "lib" [Entry.dir "v1.0.0"
           [Entry.file "lib.zip" 5, Entry.file "lib.zip.sha256" 64,
            Entry.file "README.md" 2]],
         Entry.dir "app" [Entry.dir "v2.0.0"
           [Entry.file "app.zip" 6, Entry.file "app.zip.md5" 32]],
         Entry.dir ".git" [Entry.dir "objects" []]]
        [⟨"app", true⟩] "2026-01-01T00:00:00Z").stats.totalReleases
      = ((generatePackagesJson
        [Entry.dir "lib" [Entry.dir "v1.0.0"
           [Entry.file "lib.zip" 5, Entry.file "lib.zip.sha256" 64,
            Entry.file "README.md" 2]],
         Entry.dir "app" [Entry.dir "v2.0.0"
           [Entry.file "app.zip" 6, Entry.file "app.zip.md5" 32]],
         Entry.dir ".git" [Entry.dir "objects" []]]
        [⟨"app", true⟩] "2026-01-01T00:00:00Z").repositories.map
          (fun r => r.releases.length)).sum
    ∧ (⟨"lib", false, [⟨"v1.0.0", 1⟩]⟩ : RepoEntry).name ≠ ".git"
    ∧ ∃ ch, Entry.dir (⟨"lib", false, [⟨"v1.0.0", 1⟩]⟩ : RepoEntry).name ch ∈
          [Entry.dir "lib" [Entry.dir "v1.0.0"
             [Entry.file "lib.zip" 5, Entry.file "lib.zip.sha256" 64,
              Entry.file "README.md" 2]],
           Entry.dir "app" [Entry.dir "v2.0.0"
             [Entry.file "app.zip" 6, Entry.file "app.zip.md5" 32]],
           Entry.dir ".git" [Entry.dir "objects" []]]
        ∧ ∃ tag tch, Entry.dir tag tch ∈ ch ∧ strStartsWith tag "v" = true
            ∧ 0 < (tch.filter isQualifyingFile).length := by
  have h := generatePackagesJson_shape
    [Entry.dir "lib" [Entry.dir "v1.0.0"
       [Entry.file "lib.zip" 5, Entry.file "lib.zip.sha256" 64,
        Entry.file "README.md" 2]],
     Entry.dir "app" [Entry.dir "v2.0.0"
       [Entry.file "app.zip" 6, Entry.file "app.zip.md5" 32]],
     Entry.dir ".git" [Entry.dir "objects" []]]
    [⟨"app", true⟩] "2026-01-01T00:00:00Z"
  refine ⟨h.2.2.1, ?_⟩
  exact h.2.2.2.2.2 ⟨"lib", false, [⟨"v1.0.0", 1⟩]⟩ (by decide)

/-! ## C3 — `syncReleaseAssets` returns nothing to its caller -/

/-- C3 (code bug): `syncReleaseAssets` accumulates `repositoryData` but its
body ends without a `return` statement, so the caller receives `undefined`
(`none`), not the accumulated list of non-empty `Repository` records and
counters — even on a run that collected a non-empty record.
`syncAssetsWithMetadata` therefore crashes (`JSON.stringify(undefined)` is
`undefined`, and `fs.writeFileSync` throws a `TypeError`) instead of
serializing the list as `repo-metadata.json`. -/
theorem syncReleaseAssets_returns_nothing :
    syncReleaseAssetsRet
        [⟨"app", Except.ok [⟨"v1.0.0", false, false, [⟨"a.zip", 1, true, true⟩]⟩]⟩]
        false 0 [] = none
    ∧ (syncReleaseAssetsState
        [⟨"app", Except.ok [⟨"v1.0.0", false, false, [⟨"a.zip", 1, true, true⟩]⟩]⟩]
        false 0 []).repositoryData = [⟨"app", [⟨"v1.0.0", 1⟩]⟩]
    ∧ syncAssetsWithMetadata
        [⟨"app", Except.ok [⟨"v1.0.0", false, false, [⟨"a.zip", 1, true, true⟩]⟩]⟩]
        false 0 []
      = Except.error
          "TypeError: the data argument must be of type string or an instance of Buffer" := by
  decide

/-! ## C8 — repository failure isolation -/

theorem syncLoop_quota_hit (isPR : Bool) (k : Nat) (l : List Repo) (st : SyncState)
    (h : 0 < k ∧ k ≤ st.newAssetsDownloaded) : syncLoop isPR k l st = st := by
  cases l with
  | nil => rfl
  | cons r t => rw [syncLoop, if_pos h]

theorem syncLoop_skip_bad (isPR : Bool) (k : Nat) (bad : Repo) (e : String)
    (hbad : bad.releases = .error e) :
    ∀ (pre post : List Repo) (st : SyncState),
      syncLoop isPR k (pre ++ bad :: post) st = syncLoop isPR k (pre ++ post) st := by
  intro pre
  induction pre with
  | nil =>
    intro post st
    simp only [List.nil_append]
    by_cases h : 0 < k ∧ k ≤ st.newAssetsDownloaded
    · rw [syncLoop, if_pos h, syncLoop_quota_hit isPR k post st h]
    · rw [syncLoop, if_neg h]
      have hproc : processRepository bad st.repositoryData st.totalAssets isPR
          (if isPR then some 2 else none) k st.newAssetsDownloaded st.disk
          = ⟨st.repositoryData, st.totalAssets, 0, st.newAssetsDownloaded, st.disk⟩ := by
        rw [processRepository, hbad]
      rw [hproc]
      show syncLoop isPR k post ⟨st.repositoryData, st.totalAssets,
        st.totalProcessedReleases + 0, st.newAssetsDownloaded, st.disk⟩
        = syncLoop isPR k post st
      rw [Nat.add_zero]
  | cons r t ih =>
    intro post st
    simp only [List.cons_append]
    by_cases h : 0 < k ∧ k ≤ st.newAssetsDownloaded
    · rw [syncLoop, if_pos h, syncLoop, if_pos h]
    · rw [syncLoop, if_neg h, syncLoop, if_neg h]
      exact ih post _

/-- C8: a repository whose release enumeration throws is caught inside
`processRepository`: the record list, counters and disk come back exactly as
they went in (`processedReleases = 0`), and the whole run over
`pre ++ [bad] ++ post` is state-for-state identical to the run over
`pre ++ post` — the remaining repositories' records (and hence their manifest
entries, a pure function of the final disk and metadata) are unaffected. -/
theorem repo_failure_isolated (pre post : List Repo) (bad : Repo) (e : String)
    (isPR : Bool) (maxNewAssets : Nat) (d : Disk)
    (hbad : bad.releases = Except.error e) :
    (∀ (rd : List RepoData) (ta : Nat) (rl : Option Nat) (c : Nat) (d' : Disk),
       processRepository bad rd ta isPR rl maxNewAssets c d' = ⟨rd, ta, 0, c, d'⟩)
    ∧ syncReleaseAssetsState (pre ++ bad :: post) isPR maxNewAssets d
        = syncReleaseAssetsState (pre ++ post) isPR maxNewAssets d := by
  constructor
  · intro rd ta rl c d'
    rw [processRepository, hbad]
  · rw [syncReleaseAssetsState, syncReleaseAssetsState,
      syncLoop_skip_bad isPR maxNewAssets bad e hbad]

/-- Witness for C8: with three repositories where the middle one's enumeration
throws, the run equals the run over the two good ones. -/
theorem repo_failure_isolated_witness :
    processRepository ⟨"bad", Except.error "boom"⟩ [] 0 false none 0 0 []
      = ⟨[], 0, 0, 0, []⟩
    ∧ syncReleaseAssetsState
        [⟨"one", Except.ok [⟨"v1.0.0", false, false, [⟨"a.zip", 1, true, true⟩]⟩]⟩,
         ⟨"bad", Except.error "boom"⟩,
         ⟨"two", Except.ok [⟨"v2.0.0", false, false, [⟨"b.zip", 2, true, true⟩]⟩]⟩]
        false 0 []
      = syncReleaseAssetsState
        [⟨"one", Except.ok [⟨"v1.0.0", false, false, [⟨"a.zip", 1, true, true⟩]⟩]⟩,
         ⟨"two", Except.ok [⟨"v2.0.0", false, false, [⟨"b.zip", 2, true, true⟩]⟩]⟩]
        false 0 [] := by
  have h := repo_failure_isolated
    [⟨"one", Except.ok [⟨"v1.0.0", false, false, [⟨"a.zip", 1, true, true⟩]⟩]⟩]
    [⟨"two", Except.ok [⟨"v2.0.0", false, false, [⟨"b.zip", 2, true, true⟩]⟩]⟩]
    ⟨"bad", Except.error "boom"⟩ "boom" false 0 [] rfl
  exact ⟨h.1 [] 0 none 0 [], h.2⟩

/-! ## Availability and post-state depend only on the destination's entry -/

theorem availableNew_congr (d1 d2 : Disk) (p : String) (a : Asset)
    (h : dget d1 p = dget d2 p) : availableNew d1 p a = availableNew d2 p a := by
  rw [availableNew, availableNew, h]

theorem afterGoodB_congr (d1 d2 : Disk) (p : String) (a : Asset)
    (h : dget d1 p = dget d2 p) : afterGoodB d1 p a = afterGoodB d2 p a := by
  rw [afterGoodB, afterGoodB, h]

theorem countAvail_congr (d1 d2 : Disk) (occs : List (String × Asset))
    (h : ∀ o ∈ occs, dget d1 o.1 = dget d2 o.1) :
    countAvail d1 occs = countAvail d2 occs := by
  rw [countAvail, countAvail]
  apply List.countP_congr
  intro o ho
  rw [availableNew_congr d1 d2 o.1 o.2 (h o ho)]

theorem countAvail_append (d : Disk) (l1 l2 : List (String × Asset)) :
    countAvail d (l1 ++ l2) = countAvail d l1 + countAvail d l2 := by
  rw [countAvail, countAvail, countAvail, List.countP_append]

/-- An asset destination in the canonical post-run state is not available for
a fresh download. -/
theorem afterGood_not_avail (d : Disk) (p : String) (a : Asset)
    (h : afterGoodB d p a = true) : availableNew d p a = false := by
  rw [afterGoodB] at h
  rw [availableNew]
  by_cases hsm : a.size ≤ maxSizeBytes
  · rw [if_pos hsm] at h
    cases hd : dget d p with
    | none => rw [hd] at h; simp at h
    | some s =>
      rw [hd] at h
      have hs := of_decide_eq_true h
      simp [hd, smallB, hsm, Nat.not_lt.mpr hs]
  · simp [smallB, hsm]

theorem avail_small (d : Disk) (p : String) (a : Asset)
    (h : availableNew d p a = true) : smallB a = true := by
  rw [availableNew] at h
  simp only [Bool.and_eq_true] at h
  exact h.1

/-! ## The asset loop under unlimited quota, all oracles succeeding -/

theorem assetsLoop_zero (dir : String) (c : Nat) :
    ∀ (assets : List Asset) (ac n : Nat) (d : Disk),
      (∀ o ∈ assetOccs dir assets, Succeeds o) →
      List.Pairwise NoInterfere (assetOccs dir assets) →
      (processAssetsLoop dir 0 c assets ac n d).1 = ac + assets.countP smallB
      ∧ (processAssetsLoop dir 0 c assets ac n d).2.1
          = n + countAvail d (assetOccs dir assets)
      ∧ (∀ q, (∀ o ∈ assetOccs dir assets, q ∉ touchedPaths o.1) →
          dget (processAssetsLoop dir 0 c assets ac n d).2.2 q = dget d q)
      ∧ (∀ o ∈ assetOccs dir assets,
          afterGoodB (processAssetsLoop dir 0 c assets ac n d).2.2 o.1 o.2 = true) := by
  intro assets
  induction assets with
  | nil =>
    intro ac n d _ _
    refine ⟨?_, ?_, ?_, ?_⟩ <;> simp [processAssetsLoop, assetOccs, countAvail]
  | cons a rest ih =>
    intro ac n d hs hp
    have hmem_head : (assetPathOf dir a, a) ∈ assetOccs dir (a :: rest) := by
      simp [assetOccs]
    obtain ⟨hdl, hh⟩ := hs _ hmem_head
    have hsucc := processAsset_success dir a d hdl hh
    have hocs : assetOccs dir (a :: rest)
        = (assetPathOf dir a, a) :: assetOccs dir rest := rfl
    rw [hocs] at hs hp
    have hs' : ∀ o ∈ assetOccs dir rest, Succeeds o :=
      fun o ho => hs o (List.mem_cons_of_mem _ ho)
    obtain ⟨hcross, hp'⟩ := List.pairwise_cons.mp hp
    have hframe1 : ∀ o ∈ assetOccs dir rest,
        dget (processAsset dir a d).2 o.1 = dget d o.1 :=
      fun o ho => processAsset_frame dir a d o.1 (hcross o ho).2
    have hloop : processAssetsLoop dir 0 c (a :: rest) ac n d
        = processAssetsLoop dir 0 c rest
            (if smallB a = true then ac + 1 else ac)
            (if smallB a = true ∧ availableNew d (assetPathOf dir a) a = true
              then n + 1 else n)
            (processAsset dir a d).2 := by
      simp only [processAssetsLoop]
      rw [if_neg (by omega), hsucc.1]
    rw [hloop, hocs]
    obtain ⟨ih1, ih2, ih3, ih4⟩ := ih _ _ (processAsset dir a d).2 hs' hp'
    refine ⟨?_, ?_, ?_, ?_⟩
    · rw [ih1, List.countP_cons]
      by_cases hsm : smallB a = true
      · rw [if_pos hsm, if_pos hsm]
        omega
      · rw [if_neg hsm, if_neg hsm]
        omega
    · rw [ih2, countAvail_congr _ d _ hframe1]
      have hcons : countAvail d ((assetPathOf dir a, a) :: assetOccs dir rest)
          = countAvail d (assetOccs dir rest)
            + if availableNew d (assetPathOf dir a) a then 1 else 0 := by
        rw [countAvail, List.countP_cons, countAvail]
      rw [hcons]
      by_cases hav : availableNew d (assetPathOf dir a) a = true
      · have hsm := avail_small d _ a hav
        rw [if_pos ⟨hsm, hav⟩, if_pos hav]
        omega
      · have hnand : ¬ (smallB a = true ∧ availableNew d (assetPathOf dir a) a = true) :=
          fun hc => hav hc.2
        rw [if_neg hnand, if_neg hav]
        omega
    · intro q hq
      rw [ih3 q (fun o ho => hq o (List.mem_cons_of_mem _ ho))]
      exact processAsset_frame dir a d q (hq _ (List.mem_cons_self _ _))
    · intro o ho
      rcases List.mem_cons.mp ho with hohead | horest
      · rw [hohead]
        have hpq : dget (processAssetsLoop dir 0 c rest
            (if smallB a = true then ac + 1 else ac)
            (if smallB a = true ∧ availableNew d (assetPathOf dir a) a = true
              then n + 1 else n)
            (processAsset dir a d).2).2.2 (assetPathOf dir a)
            = dget (processAsset dir a d).2 (assetPathOf dir a) :=
          ih3 _ (fun o' ho' => (hcross o' ho').1)
        rw [afterGoodB_congr _ _ _ _ hpq]
        exact hsucc.2
      · exact ih4 o horest

/-- On destinations already in the canonical post-run state, the asset loop
counts the within-ceiling assets as existing, downloads nothing and leaves the
disk untouched. -/
theorem assetsLoop_stable (dir : String) (c : Nat) :
    ∀ (assets : List Asset) (ac n : Nat) (d : Disk),
      (∀ o ∈ assetOccs dir assets, afterGoodB d o.1 o.2 = true) →
      processAssetsLoop dir 0 c assets ac n d = (ac + assets.countP smallB, n, d) := by
  intro assets
  induction assets with
  | nil =>
    intro ac n d _
    simp [processAssetsLoop]
  | cons a rest ih =>
    intro ac n d hg
    have hghead : afterGoodB d (assetPathOf dir a) a = true :=
      hg (assetPathOf dir a, a) (by simp [assetOccs])
    have hstep := processAsset_stable dir a d hghead
    have hloop : processAssetsLoop dir 0 c (a :: rest) ac n d
        = processAssetsLoop dir 0 c rest
            (if smallB a = true then ac + 1 else ac) n d := by
      simp only [processAssetsLoop]
      rw [if_neg (by omega), hstep]
      simp
    rw [hloop, ih _ n d (fun o ho => hg o (List.mem_cons_of_mem _ ho)),
      List.countP_cons]
    by_cases hsm : smallB a = true
    · rw [if_pos hsm, if_pos hsm]
      refine congrArg (fun m => (m, n, d)) ?_
      omega
    · rw [if_neg hsm, if_neg hsm]
      refine congrArg (fun m => (m, n, d)) ?_
      omega

theorem processRelease_eq_loop (rn : String) (rel : Release) (k c : Nat) (d : Disk) :
    processRelease rn rel k c d
      = processAssetsLoop (rn ++ "/" ++ rel.tag_name) k c rel.assets 0 0 d := by
  rw [processRelease]
  by_cases h : rel.assets.length = 0
  · rw [if_pos h]
    have hnil : rel.assets = [] := List.length_eq_zero.mp h
    rw [hnil, processAssetsLoop]
  · rw [if_neg h]

theorem relOccs_def (rn : String) (rel : Release) :
    relOccs rn rel = assetOccs (rn ++ "/" ++ rel.tag_name) rel.assets := rfl

/-! ## The release loop under unlimited quota, all oracles succeeding -/

theorem releasesLoop_zero (rn : String) (c : Nat) :
    ∀ (rels : List Release) (ta pr n : Nat) (es : List RelEntry) (d : Disk),
      (∀ o ∈ rels.flatMap (relOccs rn), Succeeds o) →
      List.Pairwise NoInterfere (rels.flatMap (relOccs rn)) →
      (processReleasesLoop rn false none 0 c rels ta pr n es d).1
          = ta + (rels.map smallCount).sum
      ∧ (processReleasesLoop rn false none 0 c rels ta pr n es d).2.1
          = pr + (rels.filterMap relEntrySpec).length
      ∧ (processReleasesLoop rn false none 0 c rels ta pr n es d).2.2.1
          = n + countAvail d (rels.flatMap (relOccs rn))
      ∧ (processReleasesLoop rn false none 0 c rels ta pr n es d).2.2.2.1
          = es ++ rels.filterMap relEntrySpec
      ∧ (∀ q, (∀ o ∈ rels.flatMap (relOccs rn), q ∉ touchedPaths o.1) →
          dget (processReleasesLoop rn false none 0 c rels ta pr n es d).2.2.2.2 q
            = dget d q)
      ∧ (∀ o ∈ rels.flatMap (relOccs rn),
          afterGoodB (processReleasesLoop rn false none 0 c rels ta pr n es d).2.2.2.2
            o.1 o.2 = true) := by
  intro rels
  induction rels with
  | nil =>
    intro ta pr n es d _ _
    refine ⟨?_, ?_, ?_, ?_, ?_, ?_⟩ <;>
      simp [processReleasesLoop, countAvail]
  | cons rel rest ih =>
    intro ta pr n es d hs hp
    have hguard1 : ¬ (0 < 0 ∧ 0 ≤ c + n) := by omega
    have hguard2 : ¬ prLimitReached false none pr := by simp [prLimitReached]
    have hsplit : (rel :: rest).flatMap (relOccs rn)
        = relOccs rn rel ++ rest.flatMap (relOccs rn) := by
      simp
    rw [hsplit] at hs hp
    have hshead : ∀ o ∈ assetOccs (rn ++ "/" ++ rel.tag_name) rel.assets, Succeeds o := by
      rw [← relOccs_def]
      exact fun o ho => hs o (List.mem_append_left _ ho)
    have hsrest : ∀ o ∈ rest.flatMap (relOccs rn), Succeeds o :=
      fun o ho => hs o (List.mem_append_right _ ho)
    obtain ⟨hphead0, hprest, hcross⟩ := List.pairwise_append.mp hp
    have hphead : List.Pairwise NoInterfere
        (assetOccs (rn ++ "/" ++ rel.tag_name) rel.assets) := by
      rw [← relOccs_def]
      exact hphead0
    have ha := assetsLoop_zero (rn ++ "/" ++ rel.tag_name) (c + n) rel.assets 0 0 d
      hshead hphead
    have hr := processRelease_eq_loop rn rel 0 (c + n) d
    have h1 : (processRelease rn rel 0 (c + n) d).1 = smallCount rel := by
      rw [hr, ha.1, Nat.zero_add]
      rfl
    have h2 : (processRelease rn rel 0 (c + n) d).2.1
        = countAvail d (relOccs rn rel) := by
      rw [hr, ha.2.1, Nat.zero_add, relOccs_def]
    have hframe_head : ∀ q, (∀ o ∈ relOccs rn rel, q ∉ touchedPaths o.1) →
        dget (processRelease rn rel 0 (c + n) d).2.2 q = dget d q := by
      intro q hq
      rw [hr]
      exact ha.2.2.1 q (by rw [← relOccs_def]; exact hq)
    have hgood_head : ∀ o ∈ relOccs rn rel,
        afterGoodB (processRelease rn rel 0 (c + n) d).2.2 o.1 o.2 = true := by
      intro o ho
      rw [hr]
      exact ha.2.2.2 o (by rw [relOccs_def] at ho; exact ho)
    have hloop : processReleasesLoop rn false none 0 c (rel :: rest) ta pr n es d
        = processReleasesLoop rn false none 0 c rest
            (ta + (processRelease rn rel 0 (c + n) d).1)
            (if 0 < (processRelease rn rel 0 (c + n) d).1 then pr + 1 else pr)
            (n + (processRelease rn rel 0 (c + n) d).2.1)
            (if 0 < (processRelease rn rel 0 (c + n) d).1
              then es ++ [⟨rel.tag_name, (processRelease rn rel 0 (c + n) d).1⟩]
              else es)
            (processRelease rn rel 0 (c + n) d).2.2 := by
      simp only [processReleasesLoop]
      rw [if_neg hguard1, if_neg hguard2]
    have hrestframe : ∀ o ∈ rest.flatMap (relOccs rn),
        dget (processRelease rn rel 0 (c + n) d).2.2 o.1 = dget d o.1 := by
      intro o ho
      exact hframe_head o.1 (fun o' ho' => ((hcross o' ho' o ho).2))
    obtain ⟨ih1, ih2, ih3, ih4, ih5, ih6⟩ := ih
      (ta + (processRelease rn rel 0 (c + n) d).1)
      (if 0 < (processRelease rn rel 0 (c + n) d).1 then pr + 1 else pr)
      (n + (processRelease rn rel 0 (c + n) d).2.1)
      (if 0 < (processRelease rn rel 0 (c + n) d).1
        then es ++ [⟨rel.tag_name, (processRelease rn rel 0 (c + n) d).1⟩]
        else es)
      (processRelease rn rel 0 (c + n) d).2.2 hsrest hprest
    rw [hsplit, hloop]
    refine ⟨?_, ?_, ?_, ?_, ?_, ?_⟩
    · rw [ih1, h1, List.map_cons, List.sum_cons]
      omega
    · rw [ih2, h1, List.filterMap_cons]
      by_cases hpush : 0 < smallCount rel
      · rw [if_pos hpush]
        have : relEntrySpec rel = some ⟨rel.tag_name, smallCount rel⟩ := by
          rw [relEntrySpec, if_pos hpush]
        rw [this]
        simp only [List.length_cons]
        omega
      · rw [if_neg hpush]
        have : relEntrySpec rel = none := by
          rw [relEntrySpec, if_neg hpush]
        rw [this]
    · rw [ih3, h2, countAvail_append,
        countAvail_congr (processRelease rn rel 0 (c + n) d).2.2 d _ hrestframe]
      omega
    · rw [ih4, h1, List.filterMap_cons]
      by_cases hpush : 0 < smallCount rel
      · rw [if_pos hpush]
        have : relEntrySpec rel = some ⟨rel.tag_name, smallCount rel⟩ := by
          rw [relEntrySpec, if_pos hpush]
        rw [this, List.append_assoc, List.singleton_append]
      · rw [if_neg hpush]
        have : relEntrySpec rel = none := by
          rw [relEntrySpec, if_neg hpush]
        rw [this]
    · intro q hq
      rw [ih5 q (fun o ho => hq o (List.mem_append_right _ ho))]
      exact hframe_head q (fun o ho => hq o (List.mem_append_left _ ho))
    · intro o ho
      rcases List.mem_append.mp ho with hohead | horest
      · have hpres : dget (processReleasesLoop rn false none 0 c rest
            (ta + (processRelease rn rel 0 (c + n) d).1)
            (if 0 < (processRelease rn rel 0 (c + n) d).1 then pr + 1 else pr)
            (n + (processRelease rn rel 0 (c + n) d).2.1)
            (if 0 < (processRelease rn rel 0 (c + n) d).1
              then es ++ [⟨rel.tag_name, (processRelease rn rel 0 (c + n) d).1⟩]
              else es)
            (processRelease rn rel 0 (c + n) d).2.2).2.2.2.2 o.1
            = dget (processRelease rn rel 0 (c + n) d).2.2 o.1 :=
          ih5 o.1 (fun o' ho' => (hcross o hohead o' ho').1)
        rw [afterGoodB_congr _ _ _ _ hpres]
        exact hgood_head o hohead
      · exact ih6 o horest

theorem releasesLoop_stable (rn : String) (c : Nat) :
    ∀ (rels : List Release) (ta pr n : Nat) (es : List RelEntry) (d : Disk),
      (∀ o ∈ rels.flatMap (relOccs rn), afterGoodB d o.1 o.2 = true) →
      processReleasesLoop rn false none 0 c rels ta pr n es d
        = (ta + (rels.map smallCount).sum,
           pr + (rels.filterMap relEntrySpec).length,
           n,
           es ++ rels.filterMap relEntrySpec,
           d) := by
  intro rels
  induction rels with
  | nil =>
    intro ta pr n es d _
    simp [processReleasesLoop]
  | cons rel rest ih =>
    intro ta pr n es d hg
    have hguard1 : ¬ (0 < 0 ∧ 0 ≤ c + n) := by omega
    have hguard2 : ¬ prLimitReached false none pr := by simp [prLimitReached]
    have hsplit : (rel :: rest).flatMap (relOccs rn)
        = relOccs rn rel ++ rest.flatMap (relOccs rn) := by
      simp
    rw [hsplit] at hg
    have hghead : ∀ o ∈ assetOccs (rn ++ "/" ++ rel.tag_name) rel.assets,
        afterGoodB d o.1 o.2 = true := by
      rw [← relOccs_def]
      exact fun o ho => hg o (List.mem_append_left _ ho)
    have hgrest : ∀ o ∈ rest.flatMap (relOccs rn), afterGoodB d o.1 o.2 = true :=
      fun o ho => hg o (List.mem_append_right _ ho)
    have hstable := assetsLoop_stable (rn ++ "/" ++ rel.tag_name) (c + n)
      rel.assets 0 0 d hghead
    have hrel : processRelease rn rel 0 (c + n) d = (smallCount rel, 0, d) := by
      rw [processRelease_eq_loop, hstable, Nat.zero_add]
      rfl
    have hloop : processReleasesLoop rn false none 0 c (rel :: rest) ta pr n es d
        = processReleasesLoop rn false none 0 c rest
            (ta + smallCount rel)
            (if 0 < smallCount rel then pr + 1 else pr)
            (n + 0)
            (if 0 < smallCount rel then es ++ [⟨rel.tag_name, smallCount rel⟩] else es)
            d := by
      simp only [processReleasesLoop]
      rw [if_neg hguard1, if_neg hguard2, hrel]
    rw [hloop, ih _ _ _ _ d hgrest, List.map_cons, List.sum_cons, List.filterMap_cons]
    by_cases hpush : 0 < smallCount rel
    · have hfm : relEntrySpec rel = some ⟨rel.tag_name, smallCount rel⟩ := by
        rw [relEntrySpec, if_pos hpush]
      rw [if_pos hpush, if_pos hpush, hfm, List.length_cons, List.append_assoc,
        List.singleton_append, Nat.add_zero, Nat.add_assoc ta (smallCount rel) _,
        Nat.add_assoc pr 1 _,
        Nat.add_comm 1 ((List.filterMap relEntrySpec rest).length)]
      simp
    · have hfm : relEntrySpec rel = none := by
        rw [relEntrySpec, if_neg hpush]
      rw [if_neg hpush, if_neg hpush, hfm, Nat.add_zero,
        Nat.add_assoc ta (smallCount rel) _]

/-! ## Unfolding `processRepository` -/

theorem processRepository_emptyPub (repo : Repo) (rels : List Release)
    (hrel : repo.releases = .ok rels) (rd : List RepoData) (ta : Nat)
    (isPR : Bool) (rl : Option Nat) (k c : Nat) (d : Disk)
    (hpub : (publishedOf rels).length = 0) :
    processRepository repo rd ta isPR rl k c d = ⟨rd, ta, 0, c, d⟩ := by
  rw [processRepository, hrel]
  simp only []
  rw [if_pos hpub]

theorem processRepository_ok (repo : Repo) (rels : List Release)
    (hrel : repo.releases = .ok rels) (rd : List RepoData) (ta : Nat)
    (isPR : Bool) (rl : Option Nat) (k c : Nat) (d : Disk)
    (hpub : ¬ (publishedOf rels).length = 0) :
    processRepository repo rd ta isPR rl k c d
      = ⟨(if 0 < (processReleasesLoop repo.name isPR rl k c (publishedOf rels)
              ta 0 0 [] d).2.2.2.1.length
          then rd ++ [⟨repo.name,
            (processReleasesLoop repo.name isPR rl k c (publishedOf rels)
              ta 0 0 [] d).2.2.2.1⟩]
          else rd),
         (processReleasesLoop repo.name isPR rl k c (publishedOf rels) ta 0 0 [] d).1,
         (processReleasesLoop repo.name isPR rl k c (publishedOf rels) ta 0 0 [] d).2.1,
         c + (processReleasesLoop repo.name isPR rl k c (publishedOf rels)
              ta 0 0 [] d).2.2.1,
         (processReleasesLoop repo.name isPR rl k c (publishedOf rels)
              ta 0 0 [] d).2.2.2.2⟩ := by
  rw [processRepository, hrel]
  simp only []
  rw [if_neg hpub]

/-! ## The repository loop under unlimited quota, all oracles succeeding -/

theorem syncLoop_zero :
    ∀ (repos : List Repo) (st : SyncState),
      (∀ o ∈ occurrences repos, Succeeds o) →
      List.Pairwise NoInterfere (occurrences repos) →
      (syncLoop false 0 repos st).repositoryData
          = st.repositoryData ++ repositoryDataSpec repos
      ∧ (syncLoop false 0 repos st).totalAssets
          = st.totalAssets + totalAssetsSpec repos
      ∧ (syncLoop false 0 repos st).totalProcessedReleases
          = st.totalProcessedReleases + processedSpec repos
      ∧ (syncLoop false 0 repos st).newAssetsDownloaded
          = st.newAssetsDownloaded + countAvail st.disk (occurrences repos)
      ∧ (∀ q, (∀ o ∈ occurrences repos, q ∉ touchedPaths o.1) →
          dget (syncLoop false 0 repos st).disk q = dget st.disk q)
      ∧ (∀ o ∈ occurrences repos,
          afterGoodB (syncLoop false 0 repos st).disk o.1 o.2 = true) := by
  intro repos
  induction repos with
  | nil =>
    intro st _ _
    refine ⟨?_, ?_, ?_, ?_, ?_, ?_⟩ <;>
      simp [syncLoop, occurrences, repositoryDataSpec, totalAssetsSpec,
        processedSpec, countAvail]
  | cons repo rest ih =>
    intro st hs hp
    have hguard : ¬ (0 < 0 ∧ 0 ≤ st.newAssetsDownloaded) := by omega
    have hsplit : occurrences (repo :: rest) = repoOccs repo ++ occurrences rest := by
      simp [occurrences]
    rw [hsplit] at hs hp
    have hshead : ∀ o ∈ repoOccs repo, Succeeds o :=
      fun o ho => hs o (List.mem_append_left _ ho)
    have hsrest : ∀ o ∈ occurrences rest, Succeeds o :=
      fun o ho => hs o (List.mem_append_right _ ho)
    obtain ⟨hphead, hprest, hcross⟩ := List.pairwise_append.mp hp
    have hstep : syncLoop false 0 (repo :: rest) st
        = syncLoop false 0 rest
            ⟨(processRepository repo st.repositoryData st.totalAssets false none 0
                st.newAssetsDownloaded st.disk).repositoryData,
             (processRepository repo st.repositoryData st.totalAssets false none 0
                st.newAssetsDownloaded st.disk).totalAssets,
             st.totalProcessedReleases +
               (processRepository repo st.repositoryData st.totalAssets false none 0
                 st.newAssetsDownloaded st.disk).processedReleases,
             (processRepository repo st.repositoryData st.totalAssets false none 0
                st.newAssetsDownloaded st.disk).newAssetsDownloaded,
             (processRepository repo st.repositoryData st.totalAssets false none 0
                st.newAssetsDownloaded st.disk).disk⟩ := by
      simp only [syncLoop]
      rw [if_neg hguard]
      rfl
    cases hrel : repo.releases with
    | error e =>
      have hproc : processRepository repo st.repositoryData st.totalAssets false none 0
          st.newAssetsDownloaded st.disk
          = ⟨st.repositoryData, st.totalAssets, 0, st.newAssetsDownloaded, st.disk⟩ := by
        rw [processRepository, hrel]
      have hnext : syncLoop false 0 (repo :: rest) st = syncLoop false 0 rest st := by
        rw [hstep, hproc]
        show syncLoop false 0 rest ⟨st.repositoryData, st.totalAssets,
          st.totalProcessedReleases + 0, st.newAssetsDownloaded, st.disk⟩
          = syncLoop false 0 rest st
        rw [Nat.add_zero]
      have hocc : repoOccs repo = [] := by rw [repoOccs, hrel]
      have hspec : repoDataSpec repo = none := by rw [repoDataSpec, hrel]
      have hassets : repoAssetsSpec repo = 0 := by rw [repoAssetsSpec, hrel]
      have hproc2 : repoProcessedSpec repo = 0 := by rw [repoProcessedSpec, hrel]
      rw [hocc, List.nil_append] at hs hp hsplit
      obtain ⟨ih1, ih2, ih3, ih4, ih5, ih6⟩ := ih st hs hp
      have h1 : repositoryDataSpec (repo :: rest) = repositoryDataSpec rest := by
        rw [repositoryDataSpec, List.filterMap_cons, hspec]
        rfl
      have h2 : totalAssetsSpec (repo :: rest) = totalAssetsSpec rest := by
        rw [totalAssetsSpec, List.map_cons, List.sum_cons, hassets, Nat.zero_add]
        rfl
      have h3 : processedSpec (repo :: rest) = processedSpec rest := by
        rw [processedSpec, List.map_cons, List.sum_cons, hproc2, Nat.zero_add]
        rfl
      rw [hnext, hsplit, h1, h2, h3]
      exact ⟨ih1, ih2, ih3, ih4, ih5, ih6⟩
    | ok rels =>
      by_cases hpub : (publishedOf rels).length = 0
      · have hnil : publishedOf rels = [] := List.length_eq_zero.mp hpub
        have hproc : processRepository repo st.repositoryData st.totalAssets false none 0
            st.newAssetsDownloaded st.disk
            = ⟨st.repositoryData, st.totalAssets, 0, st.newAssetsDownloaded, st.disk⟩ :=
          processRepository_emptyPub repo rels hrel _ _ _ _ _ _ _ hpub
        have hnext : syncLoop false 0 (repo :: rest) st = syncLoop false 0 rest st := by
          rw [hstep, hproc]
          show syncLoop false 0 rest ⟨st.repositoryData, st.totalAssets,
            st.totalProcessedReleases + 0, st.newAssetsDownloaded, st.disk⟩
            = syncLoop false 0 rest st
          rw [Nat.add_zero]
        have hocc : repoOccs repo = [] := by
          rw [repoOccs, hrel]
          simp only []
          rw [hnil]
          rfl
        have hentries : repoEntriesSpec rels = [] := by
          rw [repoEntriesSpec, hnil]
          rfl
        have hspec : repoDataSpec repo = none := by
          rw [repoDataSpec, hrel]
          simp [hentries]
        have hassets : repoAssetsSpec repo = 0 := by
          rw [repoAssetsSpec, hrel]
          simp only []
          rw [hnil]
          rfl
        have hproc2 : repoProcessedSpec repo = 0 := by
          rw [repoProcessedSpec, hrel]
          simp only []
          rw [hentries]
          rfl
        rw [hocc, List.nil_append] at hs hp hsplit
        obtain ⟨ih1, ih2, ih3, ih4, ih5, ih6⟩ := ih st hs hp
        have h1 : repositoryDataSpec (repo :: rest) = repositoryDataSpec rest := by
          rw [repositoryDataSpec, List.filterMap_cons, hspec]
          rfl
        have h2 : totalAssetsSpec (repo :: rest) = totalAssetsSpec rest := by
          rw [totalAssetsSpec, List.map_cons, List.sum_cons, hassets, Nat.zero_add]
          rfl
        have h3 : processedSpec (repo :: rest) = processedSpec rest := by
          rw [processedSpec, List.map_cons, List.sum_cons, hproc2, Nat.zero_add]
          rfl
        rw [hnext, hsplit, h1, h2, h3]
        exact ⟨ih1, ih2, ih3, ih4, ih5, ih6⟩
      · -- the repository actually processes its published releases
        have hocc : repoOccs repo
            = (publishedOf rels).flatMap (relOccs repo.name) := by
          rw [repoOccs, hrel]
        obtain ⟨hl1, hl2, hl3, hl4, hl5, hl6⟩ :=
          releasesLoop_zero repo.name st.newAssetsDownloaded (publishedOf rels)
            st.totalAssets 0 0 [] st.disk
            (by rw [← hocc]; exact hshead) (by rw [← hocc]; exact hphead)
        have hproc := processRepository_ok repo rels hrel st.repositoryData
          st.totalAssets false none 0 st.newAssetsDownloaded st.disk hpub
        have hE : (processReleasesLoop repo.name false none 0 st.newAssetsDownloaded
            (publishedOf rels) st.totalAssets 0 0 [] st.disk).2.2.2.1
            = repoEntriesSpec rels := by
          rw [hl4, List.nil_append]
          rfl
        have hTA : (processReleasesLoop repo.name false none 0 st.newAssetsDownloaded
            (publishedOf rels) st.totalAssets 0 0 [] st.disk).1
            = st.totalAssets + repoAssetsSpec repo := by
          rw [hl1, repoAssetsSpec, hrel]
        have hPR : (processReleasesLoop repo.name false none 0 st.newAssetsDownloaded
            (publishedOf rels) st.totalAssets 0 0 [] st.disk).2.1
            = repoProcessedSpec repo := by
          rw [hl2, Nat.zero_add, repoProcessedSpec, hrel]
          rfl
        have hNA : (processReleasesLoop repo.name false none 0 st.newAssetsDownloaded
            (publishedOf rels) st.totalAssets 0 0 [] st.disk).2.2.1
            = countAvail st.disk (repoOccs repo) := by
          rw [hl3, Nat.zero_add, hocc]
        have hDS : repoDataSpec repo
            = (if 0 < (repoEntriesSpec rels).length
                then some ⟨repo.name, repoEntriesSpec rels⟩ else none) := by
          rw [repoDataSpec, hrel]
        have hframe_head : ∀ q, (∀ o ∈ repoOccs repo, q ∉ touchedPaths o.1) →
            dget (processReleasesLoop repo.name false none 0 st.newAssetsDownloaded
              (publishedOf rels) st.totalAssets 0 0 [] st.disk).2.2.2.2 q
              = dget st.disk q := by
          intro q hq
          exact hl5 q (by rw [← hocc]; exact hq)
        have hgood_head : ∀ o ∈ repoOccs repo,
            afterGoodB (processReleasesLoop repo.name false none 0 st.newAssetsDownloaded
              (publishedOf rels) st.totalAssets 0 0 [] st.disk).2.2.2.2 o.1 o.2
              = true := by
          intro o ho
          exact hl6 o (by rw [← hocc]; exact ho)
        have hrestdget : ∀ o ∈ occurrences rest,
            dget (processReleasesLoop repo.name false none 0 st.newAssetsDownloaded
              (publishedOf rels) st.totalAssets 0 0 [] st.disk).2.2.2.2 o.1
              = dget st.disk o.1 :=
          fun o ho => hframe_head o.1 (fun o' ho' => (hcross o' ho' o ho).2)
        obtain ⟨ih1, ih2, ih3, ih4, ih5, ih6⟩ := ih
          ⟨(if 0 < (repoEntriesSpec rels).length
             then st.repositoryData ++ [⟨repo.name, repoEntriesSpec rels⟩]
             else st.repositoryData),
           st.totalAssets + repoAssetsSpec repo,
           st.totalProcessedReleases + repoProcessedSpec repo,
           st.newAssetsDownloaded + countAvail st.disk (repoOccs repo),
           (processReleasesLoop repo.name false none 0 st.newAssetsDownloaded
             (publishedOf rels) st.totalAssets 0 0 [] st.disk).2.2.2.2⟩
          hsrest hprest
        have hnext : syncLoop false 0 (repo :: rest) st
            = syncLoop false 0 rest
              ⟨(if 0 < (repoEntriesSpec rels).length
                 then st.repositoryData ++ [⟨repo.name, repoEntriesSpec rels⟩]
                 else st.repositoryData),
               st.totalAssets + repoAssetsSpec repo,
               st.totalProcessedReleases + repoProcessedSpec repo,
               st.newAssetsDownloaded + countAvail st.disk (repoOccs repo),
               (processReleasesLoop repo.name false none 0 st.newAssetsDownloaded
                 (publishedOf rels) st.totalAssets 0 0 [] st.disk).2.2.2.2⟩ := by
          rw [hstep, hproc]
          show syncLoop false 0 rest
            ⟨(if 0 < (processReleasesLoop repo.name false none 0 st.newAssetsDownloaded
                  (publishedOf rels) st.totalAssets 0 0 [] st.disk).2.2.2.1.length
               then st.repositoryData ++ [⟨repo.name,
                 (processReleasesLoop repo.name false none 0 st.newAssetsDownloaded
                   (publishedOf rels) st.totalAssets 0 0 [] st.disk).2.2.2.1⟩]
               else st.repositoryData),
             (processReleasesLoop repo.name false none 0 st.newAssetsDownloaded
               (publishedOf rels) st.totalAssets 0 0 [] st.disk).1,
             st.totalProcessedReleases +
               (processReleasesLoop repo.name false none 0 st.newAssetsDownloaded
                 (publishedOf rels) st.totalAssets 0 0 [] st.disk).2.1,
             st.newAssetsDownloaded +
               (processReleasesLoop repo.name false none 0 st.newAssetsDownloaded
                 (publishedOf rels) st.totalAssets 0 0 [] st.disk).2.2.1,
             (processReleasesLoop repo.name false none 0 st.newAssetsDownloaded
               (publishedOf rels) st.totalAssets 0 0 [] st.disk).2.2.2.2⟩
            = _
          rw [hE, hTA, hPR, hNA]
        rw [hnext]
        have hrdspec : repositoryDataSpec (repo :: rest)
            = (if 0 < (repoEntriesSpec rels).length
                then ⟨repo.name, repoEntriesSpec rels⟩ :: repositoryDataSpec rest
                else repositoryDataSpec rest) := by
          rw [repositoryDataSpec, List.filterMap_cons, hDS]
          by_cases hpush : 0 < (repoEntriesSpec rels).length
          · rw [if_pos hpush, if_pos hpush]
            rfl
          · rw [if_neg hpush, if_neg hpush]
            rfl
        have hcntrest : countAvail (processReleasesLoop repo.name false none 0
            st.newAssetsDownloaded (publishedOf rels) st.totalAssets 0 0 []
            st.disk).2.2.2.2 (occurrences rest)
            = countAvail st.disk (occurrences rest) :=
          countAvail_congr _ _ _ hrestdget
        have h2c : totalAssetsSpec (repo :: rest)
            = repoAssetsSpec repo + totalAssetsSpec rest := by
          rw [totalAssetsSpec, List.map_cons, List.sum_cons]
          rfl
        have h3c : processedSpec (repo :: rest)
            = repoProcessedSpec repo + processedSpec rest := by
          rw [processedSpec, List.map_cons, List.sum_cons]
          rfl
        rw [hsplit]
        refine ⟨?_, ?_, ?_, ?_, ?_, ?_⟩
        · rw [ih1, hrdspec]
          dsimp only
          by_cases hpush : 0 < (repoEntriesSpec rels).length
          · rw [if_pos hpush, if_pos hpush, List.append_assoc, List.singleton_append]
          · rw [if_neg hpush, if_neg hpush]
        · rw [ih2, h2c]
          dsimp only
          omega
        · rw [ih3, h3c]
          dsimp only
          omega
        · rw [ih4, hcntrest, countAvail_append]
          dsimp only
          omega
        · intro q hq
          rw [ih5 q (fun o ho => hq o (List.mem_append_right _ ho))]
          dsimp only
          exact hframe_head q (fun o ho => hq o (List.mem_append_left _ ho))
        · intro o ho
          rcases List.mem_append.mp ho with hohead | horest
          · have hpres := ih5 o.1 (fun o' ho' => (hcross o hohead o' ho').1)
            rw [afterGoodB_congr _ _ _ _ hpres]
            dsimp only
            exact hgood_head o hohead
          · exact ih6 o horest

/-- A second run over a disk already in the canonical post-run state collects
the same records and counters but downloads nothing and leaves the disk
byte-for-byte unchanged. -/
theorem syncLoop_stable :
    ∀ (repos : List Repo) (st : SyncState),
      (∀ o ∈ occurrences repos, afterGoodB st.disk o.1 o.2 = true) →
      syncLoop false 0 repos st
        = ⟨st.repositoryData ++ repositoryDataSpec repos,
           st.totalAssets + totalAssetsSpec repos,
           st.totalProcessedReleases + processedSpec repos,
           st.newAssetsDownloaded,
           st.disk⟩ := by
  intro repos
  induction repos with
  | nil =>
    intro st _
    cases st
    simp [syncLoop, repositoryDataSpec, totalAssetsSpec, processedSpec]
  | cons repo rest ih =>
    intro st hg
    have hguard : ¬ (0 < 0 ∧ 0 ≤ st.newAssetsDownloaded) := by omega
    have hsplit : occurrences (repo :: rest) = repoOccs repo ++ occurrences rest := by
      simp [occurrences]
    rw [hsplit] at hg
    have hghead : ∀ o ∈ repoOccs repo, afterGoodB st.disk o.1 o.2 = true :=
      fun o ho => hg o (List.mem_append_left _ ho)
    have hgrest : ∀ o ∈ occurrences rest, afterGoodB st.disk o.1 o.2 = true :=
      fun o ho => hg o (List.mem_append_right _ ho)
    have hstep : syncLoop false 0 (repo :: rest) st
        = syncLoop false 0 rest
            ⟨(processRepository repo st.repositoryData st.totalAssets false none 0
                st.newAssetsDownloaded st.disk).repositoryData,
             (processRepository repo st.repositoryData st.totalAssets false none 0
                st.newAssetsDownloaded st.disk).totalAssets,
             st.totalProcessedReleases +
               (processRepository repo st.repositoryData st.totalAssets false none 0
                 st.newAssetsDownloaded st.disk).processedReleases,
             (processRepository repo st.repositoryData st.totalAssets false none 0
                st.newAssetsDownloaded st.disk).newAssetsDownloaded,
             (processRepository repo st.repositoryData st.totalAssets false none 0
                st.newAssetsDownloaded st.disk).disk⟩ := by
      simp only [syncLoop]
      rw [if_neg hguard]
      rfl
    cases hrel : repo.releases with
    | error e =>
      have hproc : processRepository repo st.repositoryData st.totalAssets false none 0
          st.newAssetsDownloaded st.disk
          = ⟨st.repositoryData, st.totalAssets, 0, st.newAssetsDownloaded, st.disk⟩ := by
        rw [processRepository, hrel]
      have hnext : syncLoop false 0 (repo :: rest) st = syncLoop false 0 rest st := by
        rw [hstep, hproc]
        show syncLoop false 0 rest ⟨st.repositoryData, st.totalAssets,
          st.totalProcessedReleases + 0, st.newAssetsDownloaded, st.disk⟩
          = syncLoop false 0 rest st
        rw [Nat.add_zero]
      have hspec : repoDataSpec repo = none := by rw [repoDataSpec, hrel]
      have hassets : repoAssetsSpec repo = 0 := by rw [repoAssetsSpec, hrel]
      have hproc2 : repoProcessedSpec repo = 0 := by rw [repoProcessedSpec, hrel]
      have h1 : repositoryDataSpec (repo :: rest) = repositoryDataSpec rest := by
        rw [repositoryDataSpec, List.filterMap_cons, hspec]
        rfl
      have h2 : totalAssetsSpec (repo :: rest) = totalAssetsSpec rest := by
        rw [totalAssetsSpec, List.map_cons, List.sum_cons, hassets, Nat.zero_add]
        rfl
      have h3 : processedSpec (repo :: rest) = processedSpec rest := by
        rw [processedSpec, List.map_cons, List.sum_cons, hproc2, Nat.zero_add]
        rfl
      rw [hnext, ih st hgrest, h1, h2, h3]
    | ok rels =>
      by_cases hpub : (publishedOf rels).length = 0
      · have hnil : publishedOf rels = [] := List.length_eq_zero.mp hpub
        have hproc : processRepository repo st.repositoryData st.totalAssets false none 0
            st.newAssetsDownloaded st.disk
            = ⟨st.repositoryData, st.totalAssets, 0, st.newAssetsDownloaded, st.disk⟩ :=
          processRepository_emptyPub repo rels hrel _ _ _ _ _ _ _ hpub
        have hnext : syncLoop false 0 (repo :: rest) st = syncLoop false 0 rest st := by
          rw [hstep, hproc]
          show syncLoop false 0 rest ⟨st.repositoryData, st.totalAssets,
            st.totalProcessedReleases + 0, st.newAssetsDownloaded, st.disk⟩
            = syncLoop false 0 rest st
          rw [Nat.add_zero]
        have hentries : repoEntriesSpec rels = [] := by
          rw [repoEntriesSpec, hnil]
          rfl
        have hspec : repoDataSpec repo = none := by
          rw [repoDataSpec, hrel]
          simp [hentries]
        have hassets : repoAssetsSpec repo = 0 := by
          rw [repoAssetsSpec, hrel]
          simp only []
          rw [hnil]
          rfl
        have hproc2 : repoProcessedSpec repo = 0 := by
          rw [repoProcessedSpec, hrel]
          simp only []
          rw [hentries]
          rfl
        have h1 : repositoryDataSpec (repo :: rest) = repositoryDataSpec rest := by
          rw [repositoryDataSpec, List.filterMap_cons, hspec]
          rfl
        have h2 : totalAssetsSpec (repo :: rest) = totalAssetsSpec rest := by
          rw [totalAssetsSpec, List.map_cons, List.sum_cons, hassets, Nat.zero_add]
          rfl
        have h3 : processedSpec (repo :: rest) = processedSpec rest := by
          rw [processedSpec, List.map_cons, List.sum_cons, hproc2, Nat.zero_add]
          rfl
        rw [hnext, ih st hgrest, h1, h2, h3]
      · have hocc : repoOccs repo
            = (publishedOf rels).flatMap (relOccs repo.name) := by
          rw [repoOccs, hrel]
        have hl := releasesLoop_stable repo.name st.newAssetsDownloaded
          (publishedOf rels) st.totalAssets 0 0 [] st.disk
          (by rw [← hocc]; exact hghead)
        have hl' : processReleasesLoop repo.name false none 0 st.newAssetsDownloaded
            (publishedOf rels) st.totalAssets 0 0 [] st.disk
            = (st.totalAssets + repoAssetsSpec repo, repoProcessedSpec repo, 0,
               repoEntriesSpec rels, st.disk) := by
          rw [hl, List.nil_append, Nat.zero_add, repoAssetsSpec, hrel,
            repoProcessedSpec, hrel]
          rfl
        have hproc := processRepository_ok repo rels hrel st.repositoryData
          st.totalAssets false none 0 st.newAssetsDownloaded st.disk hpub
        have hnext : syncLoop false 0 (repo :: rest) st
            = syncLoop false 0 rest
              ⟨(if 0 < (repoEntriesSpec rels).length
                 then st.repositoryData ++ [⟨repo.name, repoEntriesSpec rels⟩]
                 else st.repositoryData),
               st.totalAssets + repoAssetsSpec repo,
               st.totalProcessedReleases + repoProcessedSpec repo,
               st.newAssetsDownloaded + 0,
               st.disk⟩ := by
          rw [hstep, hproc, hl']
        have hrdspec : repositoryDataSpec (repo :: rest)
            = (if 0 < (repoEntriesSpec rels).length
                then ⟨repo.name, repoEntriesSpec rels⟩ :: repositoryDataSpec rest
                else repositoryDataSpec rest) := by
          rw [repositoryDataSpec, List.filterMap_cons, repoDataSpec, hrel]
          by_cases hpush : 0 < (repoEntriesSpec rels).length
          · rw [if_pos hpush]
            simp only [if_pos hpush]
            rfl
          · rw [if_neg hpush]
            simp only [if_neg hpush]
            rfl
        have h2c : totalAssetsSpec (repo :: rest)
            = repoAssetsSpec repo + totalAssetsSpec rest := by
          rw [totalAssetsSpec, List.map_cons, List.sum_cons]
          rfl
        have h3c : processedSpec (repo :: rest)
            = repoProcessedSpec repo + processedSpec rest := by
          rw [processedSpec, List.map_cons, List.sum_cons]
          rfl
        have hih := ih ⟨(if 0 < (repoEntriesSpec rels).length
              then st.repositoryData ++ [(⟨repo.name, repoEntriesSpec rels⟩ : RepoData)]
              else st.repositoryData),
            st.totalAssets + repoAssetsSpec repo,
            st.totalProcessedReleases + repoProcessedSpec repo,
            st.newAssetsDownloaded + 0, st.disk⟩ hgrest
        rw [hnext, hih, hrdspec, h2c, h3c]
        simp only [SyncState.mk.injEq]
        refine ⟨?_, by omega, by omega, by omega, trivial⟩
        by_cases hpush : 0 < (repoEntriesSpec rels).length
        · rw [if_pos hpush, if_pos hpush, List.append_assoc, List.singleton_append]
        · rw [if_neg hpush, if_neg hpush]

/-! ## C2 — idempotence of the pipeline -/

/-- C2: starting from any on-disk state, a completed unlimited-quota run in
which every download and hash generation succeeds (and no two asset
destinations interfere) is idempotent: running `syncReleaseAssets` again on
the resulting disk downloads zero new assets, leaves the disk byte-for-byte
unchanged, reproduces the same `repositoryData` and counters, and — the
manifest being a pure function of the on-disk tree and overlay metadata —
`generatePackagesJson` regenerates identical `repositories` and `stats`
whatever `lastUpdated` timestamps the two runs use. -/
theorem sync_idempotent (repos : List Repo) (d0 : Disk)
    (hs : ∀ o ∈ occurrences repos, Succeeds o)
    (hp : List.Pairwise NoInterfere (occurrences repos)) :
    (syncReleaseAssetsState repos false 0
        (syncReleaseAssetsState repos false 0 d0).disk).newAssetsDownloaded = 0
    ∧ (syncReleaseAssetsState repos false 0
        (syncReleaseAssetsState repos false 0 d0).disk).disk
        = (syncReleaseAssetsState repos false 0 d0).disk
    ∧ (syncReleaseAssetsState repos false 0
        (syncReleaseAssetsState repos false 0 d0).disk).repositoryData
        = (syncReleaseAssetsState repos false 0 d0).repositoryData
    ∧ (syncReleaseAssetsState repos false 0
        (syncReleaseAssetsState repos false 0 d0).disk).totalAssets
        = (syncReleaseAssetsState repos false 0 d0).totalAssets
    ∧ (syncReleaseAssetsState repos false 0
        (syncReleaseAssetsState repos false 0 d0).disk).totalProcessedReleases
        = (syncReleaseAssetsState repos false 0 d0).totalProcessedReleases
    ∧ ∀ (view : Disk → List Entry) (meta : List RepoMeta) (t t' : String),
        (generatePackagesJson (view (syncReleaseAssetsState repos false 0
            (syncReleaseAssetsState repos false 0 d0).disk).disk) meta t).repositories
          = (generatePackagesJson
              (view (syncReleaseAssetsState repos false 0 d0).disk) meta t').repositories
        ∧ (generatePackagesJson (view (syncReleaseAssetsState repos false 0
            (syncReleaseAssetsState repos false 0 d0).disk).disk) meta t).stats
          = (generatePackagesJson
              (view (syncReleaseAssetsState repos false 0 d0).disk) meta t').stats := by
  obtain ⟨h11, h12, h13, h14, h15, h16⟩ := syncLoop_zero repos ⟨[], 0, 0, 0, d0⟩ hs hp
  have h2 := syncLoop_stable repos
    ⟨[], 0, 0, 0, (syncLoop false 0 repos ⟨[], 0, 0, 0, d0⟩).disk⟩ h16
  have hrun2 : syncReleaseAssetsState repos false 0
      (syncReleaseAssetsState repos false 0 d0).disk
      = ⟨[] ++ repositoryDataSpec repos, 0 + totalAssetsSpec repos,
         0 + processedSpec repos, 0,
         (syncLoop false 0 repos ⟨[], 0, 0, 0, d0⟩).disk⟩ := by
    rw [syncReleaseAssetsState, syncReleaseAssetsState]
    exact h2
  have hdisk2 : (syncReleaseAssetsState repos false 0
      (syncReleaseAssetsState repos false 0 d0).disk).disk
      = (syncReleaseAssetsState repos false 0 d0).disk := by
    rw [hrun2, syncReleaseAssetsState]
  refine ⟨by rw [hrun2], hdisk2, ?_, ?_, ?_, ?_⟩
  · rw [hrun2, syncReleaseAssetsState]
    rw [h11]
  · rw [hrun2, syncReleaseAssetsState]
    rw [h12]
  · rw [hrun2, syncReleaseAssetsState]
    rw [h13]
  · intro view meta t t'
    rw [hdisk2]
    exact ⟨rfl, rfl⟩

/-- Witness for C2: a repository with one small asset, one oversized asset
and one already-present file, run from an empty disk. -/
theorem sync_idempotent_witness :
    (syncReleaseAssetsState
        [⟨"app", Except.ok [⟨"v1.0.0", false, false,
          [⟨"a.zip", 1, true, true⟩, ⟨"big.bin", 52428801, true, true⟩]⟩]⟩]
        false 0
        (syncReleaseAssetsState
          [⟨"app", Except.ok [⟨"v1.0.0", false, false,
            [⟨"a.zip", 1, true, true⟩, ⟨"big.bin", 52428801, true, true⟩]⟩]⟩]
          false 0 []).disk).newAssetsDownloaded = 0
    ∧ (syncReleaseAssetsState
        [⟨"app", Except.ok [⟨"v1.0.0", false, false,
          [⟨"a.zip", 1, true, true⟩, ⟨"big.bin", 52428801, true, true⟩]⟩]⟩]
        false 0
        (syncReleaseAssetsState
          [⟨"app", Except.ok [⟨"v1.0.0", false, false,
            [⟨"a.zip", 1, true, true⟩, ⟨"big.bin", 52428801, true, true⟩]⟩]⟩]
          false 0 []).disk).disk
      = (syncReleaseAssetsState
          [⟨"app", Except.ok [⟨"v1.0.0", false, false,
            [⟨"a.zip", 1, true, true⟩, ⟨"big.bin", 52428801, true, true⟩]⟩]⟩]
          false 0 []).disk := by
  have h := sync_idempotent
    [⟨"app", Except.ok [⟨"v1.0.0", false, false,
      [⟨"a.zip", 1, true, true⟩, ⟨"big.bin", 52428801, true, true⟩]⟩]⟩]
    [] (by decide) (by decide)
  exact ⟨h.1, h.2.1⟩

/-! ## The asset loop under a positive quota -/

theorem assetsLoop_quota (dir : String) (k : Nat) (hk : 0 < k) :
    ∀ (assets : List Asset) (c ac n : Nat) (d : Disk),
      (∀ o ∈ assetOccs dir assets, Succeeds o) →
      List.Pairwise NoInterfere (assetOccs dir assets) →
      c + n ≤ k →
      c + (processAssetsLoop dir k c assets ac n d).2.1 ≤ k
      ∧ (c + (processAssetsLoop dir k c assets ac n d).2.1 = k
         ∨ (processAssetsLoop dir k c assets ac n d).2.1
             = n + countAvail d (assetOccs dir assets))
      ∧ (∀ q, (∀ o ∈ assetOccs dir assets, q ∉ touchedPaths o.1) →
          dget (processAssetsLoop dir k c assets ac n d).2.2 q = dget d q) := by
  intro assets
  induction assets with
  | nil =>
    intro c ac n d _ _ hinv
    refine ⟨hinv, Or.inr ?_, fun q _ => rfl⟩
    show n = n + countAvail d (assetOccs dir [])
    simp [assetOccs, countAvail]
  | cons a rest ih =>
    intro c ac n d hs hp hinv
    by_cases hguard : 0 < k ∧ k ≤ c + n
    · have hstop : processAssetsLoop dir k c (a :: rest) ac n d = (ac, n, d) := by
        rw [processAssetsLoop, if_pos hguard]
      rw [hstop]
      exact ⟨hinv, Or.inl (by show c + n = k; omega), fun q _ => rfl⟩
    · have hlt : c + n < k := by
        rcases Nat.lt_or_ge (c + n) k with h | h
        · exact h
        · exact absurd ⟨hk, h⟩ hguard
      have hmem_head : (assetPathOf dir a, a) ∈ assetOccs dir (a :: rest) := by
        simp [assetOccs]
      obtain ⟨hdl, hh⟩ := hs _ hmem_head
      have hsucc := processAsset_success dir a d hdl hh
      have hocs : assetOccs dir (a :: rest)
          = (assetPathOf dir a, a) :: assetOccs dir rest := rfl
      rw [hocs] at hs hp
      have hs' : ∀ o ∈ assetOccs dir rest, Succeeds o :=
        fun o ho => hs o (List.mem_cons_of_mem _ ho)
      obtain ⟨hcross, hp'⟩ := List.pairwise_cons.mp hp
      have hframe1 : ∀ o ∈ assetOccs dir rest,
          dget (processAsset dir a d).2 o.1 = dget d o.1 :=
        fun o ho => processAsset_frame dir a d o.1 (hcross o ho).2
      have hloop : processAssetsLoop dir k c (a :: rest) ac n d
          = processAssetsLoop dir k c rest
              (if smallB a = true then ac + 1 else ac)
              (if smallB a = true ∧ availableNew d (assetPathOf dir a) a = true
                then n + 1 else n)
              (processAsset dir a d).2 := by
        simp only [processAssetsLoop]
        rw [if_neg hguard, hsucc.1]
      have hn1le : c + (if smallB a = true
          ∧ availableNew d (assetPathOf dir a) a = true then n + 1 else n) ≤ k := by
        by_cases hc : smallB a = true ∧ availableNew d (assetPathOf dir a) a = true
        · rw [if_pos hc]
          omega
        · rw [if_neg hc]
          omega
      obtain ⟨ih1, ih2, ih3⟩ := ih c _ _ (processAsset dir a d).2 hs' hp' hn1le
      rw [hloop, hocs]
      have hcnt : countAvail (processAsset dir a d).2 (assetOccs dir rest)
          = countAvail d (assetOccs dir rest) :=
        countAvail_congr _ _ _ hframe1
      refine ⟨ih1, ?_, ?_⟩
      · rcases ih2 with hl | hr
        · exact Or.inl hl
        · right
          rw [hr, hcnt]
          have hcons : countAvail d ((assetPathOf dir a, a) :: assetOccs dir rest)
              = countAvail d (assetOccs dir rest)
                + if availableNew d (assetPathOf dir a) a then 1 else 0 := by
            rw [countAvail, List.countP_cons, countAvail]
          rw [hcons]
          by_cases hav : availableNew d (assetPathOf dir a) a = true
          · have hsm := avail_small d _ a hav
            rw [if_pos ⟨hsm, hav⟩, if_pos hav]
            omega
          · have hnand : ¬ (smallB a = true
                ∧ availableNew d (assetPathOf dir a) a = true) := fun hc => hav hc.2
            rw [if_neg hnand, if_neg hav]
            omega
      · intro q hq
        rw [ih3 q (fun o ho => hq o (List.mem_cons_of_mem _ ho))]
        exact processAsset_frame dir a d q (hq _ (List.mem_cons_self _ _))

/-! ## The release loop under a positive quota -/

theorem releasesLoop_quota (rn : String) (k : Nat) (hk : 0 < k) :
    ∀ (rels : List Release) (c ta pr n : Nat) (es : List RelEntry) (d : Disk),
      (∀ o ∈ rels.flatMap (relOccs rn), Succeeds o) →
      List.Pairwise NoInterfere (rels.flatMap (relOccs rn)) →
      c + n ≤ k →
      c + (processReleasesLoop rn false none k c rels ta pr n es d).2.2.1 ≤ k
      ∧ (c + (processReleasesLoop rn false none k c rels ta pr n es d).2.2.1 = k
         ∨ (processReleasesLoop rn false none k c rels ta pr n es d).2.2.1
             = n + countAvail d (rels.flatMap (relOccs rn)))
      ∧ (∀ q, (∀ o ∈ rels.flatMap (relOccs rn), q ∉ touchedPaths o.1) →
          dget (processReleasesLoop rn false none k c rels ta pr n es d).2.2.2.2 q
            = dget d q) := by
  intro rels
  induction rels with
  | nil =>
    intro c ta pr n es d _ _ hinv
    refine ⟨hinv, Or.inr ?_, fun q _ => rfl⟩
    show n = n + countAvail d (([] : List Release).flatMap (relOccs rn))
    simp [countAvail]
  | cons rel rest ih =>
    intro c ta pr n es d hs hp hinv
    by_cases hguard : 0 < k ∧ k ≤ c + n
    · have hstop : processReleasesLoop rn false none k c (rel :: rest) ta pr n es d
          = (ta, pr, n, es, d) := by
        rw [processReleasesLoop, if_pos hguard]
      rw [hstop]
      exact ⟨hinv, Or.inl (by show c + n = k; omega), fun q _ => rfl⟩
    · have hguard2 : ¬ prLimitReached false none pr := by simp [prLimitReached]
      have hsplit : (rel :: rest).flatMap (relOccs rn)
          = relOccs rn rel ++ rest.flatMap (relOccs rn) := by
        simp
      rw [hsplit] at hs hp
      have hshead : ∀ o ∈ assetOccs (rn ++ "/" ++ rel.tag_name) rel.assets,
          Succeeds o := by
        rw [← relOccs_def]
        exact fun o ho => hs o (List.mem_append_left _ ho)
      have hsrest : ∀ o ∈ rest.flatMap (relOccs rn), Succeeds o :=
        fun o ho => hs o (List.mem_append_right _ ho)
      obtain ⟨hphead0, hprest, hcross⟩ := List.pairwise_append.mp hp
      have hphead : List.Pairwise NoInterfere
          (assetOccs (rn ++ "/" ++ rel.tag_name) rel.assets) := by
        rw [← relOccs_def]
        exact hphead0
      obtain ⟨ha1, ha2, ha3⟩ := assetsLoop_quota (rn ++ "/" ++ rel.tag_name) k hk
        rel.assets (c + n) 0 0 d hshead hphead (by omega)
      have hr := processRelease_eq_loop rn rel k (c + n) d
      have hrn : (processRelease rn rel k (c + n) d).2.1
          = (processAssetsLoop (rn ++ "/" ++ rel.tag_name) k (c + n)
              rel.assets 0 0 d).2.1 := by
        rw [hr]
      have hframe_head : ∀ q, (∀ o ∈ relOccs rn rel, q ∉ touchedPaths o.1) →
          dget (processRelease rn rel k (c + n) d).2.2 q = dget d q := by
        intro q hq
        rw [hr]
        exact ha3 q (by rw [← relOccs_def]; exact hq)
      have hloop : processReleasesLoop rn false none k c (rel :: rest) ta pr n es d
          = processReleasesLoop rn false none k c rest
              (ta + (processRelease rn rel k (c + n) d).1)
              (if 0 < (processRelease rn rel k (c + n) d).1 then pr + 1 else pr)
              (n + (processRelease rn rel k (c + n) d).2.1)
              (if 0 < (processRelease rn rel k (c + n) d).1
                then es ++ [⟨rel.tag_name, (processRelease rn rel k (c + n) d).1⟩]
                else es)
              (processRelease rn rel k (c + n) d).2.2 := by
        simp only [processReleasesLoop]
        rw [if_neg hguard, if_neg hguard2]
      have hrestdget : ∀ o ∈ rest.flatMap (relOccs rn),
          dget (processRelease rn rel k (c + n) d).2.2 o.1 = dget d o.1 :=
        fun o ho => hframe_head o.1 (fun o' ho' => (hcross o' ho' o ho).2)
      have hinv' : c + (n + (processRelease rn rel k (c + n) d).2.1) ≤ k := by
        rw [hrn]
        omega
      obtain ⟨ih1, ih2, ih3⟩ := ih c
        (ta + (processRelease rn rel k (c + n) d).1)
        (if 0 < (processRelease rn rel k (c + n) d).1 then pr + 1 else pr)
        (n + (processRelease rn rel k (c + n) d).2.1)
        (if 0 < (processRelease rn rel k (c + n) d).1
          then es ++ [⟨rel.tag_name, (processRelease rn rel k (c + n) d).1⟩]
          else es)
        (processRelease rn rel k (c + n) d).2.2 hsrest hprest hinv'
      rw [hloop, hsplit]
      have hcnt : countAvail (processRelease rn rel k (c + n) d).2.2
          (rest.flatMap (relOccs rn))
          = countAvail d (rest.flatMap (relOccs rn)) :=
        countAvail_congr _ _ _ hrestdget
      refine ⟨ih1, ?_, ?_⟩
      · rcases ih2 with hl | hr2
        · exact Or.inl hl
        · rw [hr2, hcnt, countAvail_append]
          rcases ha2 with hal | har
          · left
            rw [hrn]
            have hz : countAvail d (rest.flatMap (relOccs rn)) = 0 := by
              rw [hr2, hcnt] at ih1
              rw [hrn] at ih1
              omega
            rw [hz]
            omega
          · right
            rw [hrn, har, Nat.zero_add, relOccs_def]
            omega
      · intro q hq
        rw [ih3 q (fun o ho => hq o (List.mem_append_right _ ho))]
        exact hframe_head q (fun o ho => hq o (List.mem_append_left _ ho))

/-! ## The repository loop under a positive quota -/

theorem syncLoop_quota (k : Nat) (hk : 0 < k) :
    ∀ (repos : List Repo) (st : SyncState),
      (∀ o ∈ occurrences repos, Succeeds o) →
      List.Pairwise NoInterfere (occurrences repos) →
      st.newAssetsDownloaded ≤ k →
      (syncLoop false k repos st).newAssetsDownloaded ≤ k
      ∧ ((syncLoop false k repos st).newAssetsDownloaded = k
         ∨ (syncLoop false k repos st).newAssetsDownloaded
             = st.newAssetsDownloaded + countAvail st.disk (occurrences repos))
      ∧ (∀ q, (∀ o ∈ occurrences repos, q ∉ touchedPaths o.1) →
          dget (syncLoop false k repos st).disk q = dget st.disk q) := by
  intro repos
  induction repos with
  | nil =>
    intro st _ _ hinv
    refine ⟨hinv, Or.inr ?_, fun q _ => rfl⟩
    show st.newAssetsDownloaded
      = st.newAssetsDownloaded + countAvail st.disk (occurrences [])
    simp [occurrences, countAvail]
  | cons repo rest ih =>
    intro st hs hp hinv
    by_cases hguard : 0 < k ∧ k ≤ st.newAssetsDownloaded
    · have hstop : syncLoop false k (repo :: rest) st = st := by
        rw [syncLoop, if_pos hguard]
      rw [hstop]
      exact ⟨hinv, Or.inl (by omega), fun q _ => rfl⟩
    · have hsplit : occurrences (repo :: rest) = repoOccs repo ++ occurrences rest := by
        simp [occurrences]
      rw [hsplit] at hs hp
      have hshead : ∀ o ∈ repoOccs repo, Succeeds o :=
        fun o ho => hs o (List.mem_append_left _ ho)
      have hsrest : ∀ o ∈ occurrences rest, Succeeds o :=
        fun o ho => hs o (List.mem_append_right _ ho)
      obtain ⟨hphead, hprest, hcross⟩ := List.pairwise_append.mp hp
      have hstep : syncLoop false k (repo :: rest) st
          = syncLoop false k rest
              ⟨(processRepository repo st.repositoryData st.totalAssets false none k
                  st.newAssetsDownloaded st.disk).repositoryData,
               (processRepository repo st.repositoryData st.totalAssets false none k
                  st.newAssetsDownloaded st.disk).totalAssets,
               st.totalProcessedReleases +
                 (processRepository repo st.repositoryData st.totalAssets false none k
                   st.newAssetsDownloaded st.disk).processedReleases,
               (processRepository repo st.repositoryData st.totalAssets false none k
                  st.newAssetsDownloaded st.disk).newAssetsDownloaded,
               (processRepository repo st.repositoryData st.totalAssets false none k
                  st.newAssetsDownloaded st.disk).disk⟩ := by
        simp only [syncLoop]
        rw [if_neg hguard]
        rfl
      rw [hsplit]
      cases hrel : repo.releases with
      | error e =>
        have hproc : processRepository repo st.repositoryData st.totalAssets false none k
            st.newAssetsDownloaded st.disk
            = ⟨st.repositoryData, st.totalAssets, 0, st.newAssetsDownloaded, st.disk⟩ := by
          rw [processRepository, hrel]
        have hnext : syncLoop false k (repo :: rest) st = syncLoop false k rest st := by
          rw [hstep, hproc]
          show syncLoop false k rest ⟨st.repositoryData, st.totalAssets,
            st.totalProcessedReleases + 0, st.newAssetsDownloaded, st.disk⟩
            = syncLoop false k rest st
          rw [Nat.add_zero]
        have hocc : repoOccs repo = [] := by rw [repoOccs, hrel]
        rw [hnext, hocc, List.nil_append]
        exact ih st hsrest hprest hinv
      | ok rels =>
        by_cases hpub : (publishedOf rels).length = 0
        · have hproc : processRepository repo st.repositoryData st.totalAssets false
              none k st.newAssetsDownloaded st.disk
              = ⟨st.repositoryData, st.totalAssets, 0, st.newAssetsDownloaded, st.disk⟩ :=
            processRepository_emptyPub repo rels hrel _ _ _ _ _ _ _ hpub
          have hnext : syncLoop false k (repo :: rest) st = syncLoop false k rest st := by
            rw [hstep, hproc]
            show syncLoop false k rest ⟨st.repositoryData, st.totalAssets,
              st.totalProcessedReleases + 0, st.newAssetsDownloaded, st.disk⟩
              = syncLoop false k rest st
            rw [Nat.add_zero]
          have hnil : publishedOf rels = [] := List.length_eq_zero.mp hpub
          have hocc : repoOccs repo = [] := by
            rw [repoOccs, hrel]
            simp only []
            rw [hnil]
            rfl
          rw [hnext, hocc, List.nil_append]
          exact ih st hsrest hprest hinv
        · have hocc : repoOccs repo
              = (publishedOf rels).flatMap (relOccs repo.name) := by
            rw [repoOccs, hrel]
          obtain ⟨hq1, hq2, hq3⟩ := releasesLoop_quota repo.name k hk
            (publishedOf rels) st.newAssetsDownloaded st.totalAssets 0 0 [] st.disk
            (by rw [← hocc]; exact hshead) (by rw [← hocc]; exact hphead)
            (by omega)
          have hproc := processRepository_ok repo rels hrel st.repositoryData
            st.totalAssets false none k st.newAssetsDownloaded st.disk hpub
          have hnext : syncLoop false k (repo :: rest) st
              = syncLoop false k rest
                ⟨(if 0 < (processReleasesLoop repo.name false none k
                      st.newAssetsDownloaded (publishedOf rels) st.totalAssets 0 0 []
                      st.disk).2.2.2.1.length
                   then st.repositoryData ++ [⟨repo.name,
                     (processReleasesLoop repo.name false none k st.newAssetsDownloaded
                       (publishedOf rels) st.totalAssets 0 0 [] st.disk).2.2.2.1⟩]
                   else st.repositoryData),
                 (processReleasesLoop repo.name false none k st.newAssetsDownloaded
                   (publishedOf rels) st.totalAssets 0 0 [] st.disk).1,
                 st.totalProcessedReleases +
                   (processReleasesLoop repo.name false none k st.newAssetsDownloaded
                     (publishedOf rels) st.totalAssets 0 0 [] st.disk).2.1,
                 st.newAssetsDownloaded +
                   (processReleasesLoop repo.name false none k st.newAssetsDownloaded
                     (publishedOf rels) st.totalAssets 0 0 [] st.disk).2.2.1,
                 (processReleasesLoop repo.name false none k st.newAssetsDownloaded
                   (publishedOf rels) st.totalAssets 0 0 [] st.disk).2.2.2.2⟩ := by
            rw [hstep, hproc]
          have hframe_head : ∀ q, (∀ o ∈ repoOccs repo, q ∉ touchedPaths o.1) →
              dget (processReleasesLoop repo.name false none k st.newAssetsDownloaded
                (publishedOf rels) st.totalAssets 0 0 [] st.disk).2.2.2.2 q
                = dget st.disk q := by
            intro q hq
            exact hq3 q (by rw [← hocc]; exact hq)
          have hrestdget : ∀ o ∈ occurrences rest,
              dget (processReleasesLoop repo.name false none k st.newAssetsDownloaded
                (publishedOf rels) st.totalAssets 0 0 [] st.disk).2.2.2.2 o.1
                = dget st.disk o.1 :=
            fun o ho => hframe_head o.1 (fun o' ho' => (hcross o' ho' o ho).2)
          obtain ⟨ih1, ih2, ih3⟩ := ih
            ⟨(if 0 < (processReleasesLoop repo.name false none k
                  st.newAssetsDownloaded (publishedOf rels) st.totalAssets 0 0 []
                  st.disk).2.2.2.1.length
               then st.repositoryData ++ [(⟨repo.name,
                 (processReleasesLoop repo.name false none k st.newAssetsDownloaded
                   (publishedOf rels) st.totalAssets 0 0 [] st.disk).2.2.2.1⟩ : RepoData)]
               else st.repositoryData),
             (processReleasesLoop repo.name false none k st.newAssetsDownloaded
               (publishedOf rels) st.totalAssets 0 0 [] st.disk).1,
             st.totalProcessedReleases +
               (processReleasesLoop repo.name false none k st.newAssetsDownloaded
                 (publishedOf rels) st.totalAssets 0 0 [] st.disk).2.1,
             st.newAssetsDownloaded +
               (processReleasesLoop repo.name false none k st.newAssetsDownloaded
                 (publishedOf rels) st.totalAssets 0 0 [] st.disk).2.2.1,
             (processReleasesLoop repo.name false none k st.newAssetsDownloaded
               (publishedOf rels) st.totalAssets 0 0 [] st.disk).2.2.2.2⟩
            hsrest hprest (by show st.newAssetsDownloaded +
              (processReleasesLoop repo.name false none k st.newAssetsDownloaded
                (publishedOf rels) st.totalAssets 0 0 [] st.disk).2.2.1 ≤ k; omega)
          dsimp only at ih1 ih2 ih3
          rw [hnext]
          have hcnt : countAvail (processReleasesLoop repo.name false none k
              st.newAssetsDownloaded (publishedOf rels) st.totalAssets 0 0 []
              st.disk).2.2.2.2 (occurrences rest)
              = countAvail st.disk (occurrences rest) :=
            countAvail_congr _ _ _ hrestdget
          refine ⟨ih1, ?_, ?_⟩
          · rcases ih2 with hl | hr2
            · exact Or.inl hl
            · rw [hr2, hcnt, countAvail_append]
              rcases hq2 with hal | har
              · left
                have hz : countAvail st.disk (occurrences rest) = 0 := by
                  rw [hr2, hcnt] at ih1
                  omega
                rw [hz]
                omega
              · right
                rw [har, Nat.zero_add, hocc]
                omega
          · intro q hq
            rw [ih3 q (fun o ho => hq o (List.mem_append_right _ ho))]
            exact hframe_head q (fun o ho => hq o (List.mem_append_left _ ho))

/-! ## C1 — exactness of the global new-asset quota -/

/-- C1: with a positive quota `maxNewAssets = k` and at least `k + 5` assets
available for a fresh download across the repositories (every download and
hash generation succeeding, enumerations succeeding, no two destinations
interfering, no pull-request release cap), the run downloads exactly `k` new
assets: the quota is checked before each repository, release and asset, each
successful new download increments the counter by one, and the final counter
is exactly `k` — never `k + 1`. -/
theorem syncReleaseAssets_quota_exact (repos : List Repo) (k : Nat) (d0 : Disk)
    (hk : 0 < k)
    (hs : ∀ o ∈ occurrences repos, Succeeds o)
    (hp : List.Pairwise NoInterfere (occurrences repos))
    (hav : k + 5 ≤ countAvail d0 (occurrences repos)) :
    (syncReleaseAssetsState repos false k d0).newAssetsDownloaded = k := by
  obtain ⟨h1, h2, _⟩ := syncLoop_quota k hk repos ⟨[], 0, 0, 0, d0⟩ hs hp
    (by show (0 : Nat) ≤ k; omega)
  rw [syncReleaseAssetsState]
  rcases h2 with h | h
  · exact h
  · have h' : (syncLoop false k repos ⟨[], 0, 0, 0, d0⟩).newAssetsDownloaded
        = 0 + countAvail d0 (occurrences repos) := h
    have h1' : (syncLoop false k repos ⟨[], 0, 0, 0, d0⟩).newAssetsDownloaded ≤ k := h1
    omega

/-- Witness for C1: quota 1 with six available new assets downloads exactly
one. -/
theorem syncReleaseAssets_quota_exact_witness :
    (syncReleaseAssetsState
        [⟨"app", Except.ok [⟨"v1.0.0", false, false,
          [⟨"a1.zip", 1, true, true⟩, ⟨"a2.zip", 1, true, true⟩,
           ⟨"a3.zip", 1, true, true⟩, ⟨"a4.zip", 1, true, true⟩,
           ⟨"a5.zip", 1, true, true⟩, ⟨"a6.zip", 1, true, true⟩]⟩]⟩]
        false 1 []).newAssetsDownloaded = 1 :=
  syncReleaseAssets_quota_exact
    [⟨"app", Except.ok [⟨"v1.0.0", false, false,
      [⟨"a1.zip", 1, true, true⟩, ⟨"a2.zip", 1, true, true⟩,
       ⟨"a3.zip", 1, true, true⟩, ⟨"a4.zip", 1, true, true⟩,
       ⟨"a5.zip", 1, true, true⟩, ⟨"a6.zip", 1, true, true⟩]⟩]⟩]
    1 [] (by decide) (by decide) (by decide) (by decide)

end Packages
